import Mathlib

/-!
Shallow embedding of the survey-extraction scripts of the
NIST-800-171-Tool repository (src/server/scripts/):

* `parseFordSurveyImproved.py` — `parse_html_file` line scan (`impInner`,
  `impOuter`, `improvedScan`), title parsing and the batch loop of `main`.
* `extractRealQuestions.py` — `extract_questions_from_section` line scan
  (`erqInner`, `erqOuter`, `erqScan`) and the section-merge logic of `main`.
* `extractFord2024Survey.py` — `extract_questions_from_section` line scan
  (`f24Inner`, `f24Outer`, `f24Scan`), the question-start pattern
  (`ford2024QS`) and the scoring lookahead (`scoringLookahead`).
* `parseFordSurvey.py` — the question-start pattern (`pfsQS`).

Input lines are the stripped, non-empty, newline-free strings the scripts
produce by splitting the document text on newlines; string scanning is
modelled over `List Char`.  Python regular-expression searches are encoded
as explicit leftmost scans with the same backtracking outcome on
newline-free input.  Loops are written with explicit fuel large enough to
never run out (each iteration advances the index by at least one).
-/

/-- Python `\s` / `str.strip` whitespace test (inputs contain no `\f`/`\v`). -/
def wsChar (c : Char) : Bool := c.isWhitespace

/-- Leftmost index at which `pat` occurs in `s` (semantics of `re`/`str.find`). -/
def findOcc (pat : List Char) : List Char → Option Nat
  | [] => if pat.isPrefixOf ([] : List Char) then some 0 else none
  | c :: rest =>
      if pat.isPrefixOf (c :: rest) then some 0
      else (findOcc pat rest).map (· + 1)

/-- Python `s.startswith(pat)` (kernel-reducible prefix test). -/
def strStarts (s pat : String) : Bool := pat.data.isPrefixOf s.data

/-- Python `pat in s` substring containment. -/
def containsSub (s pat : List Char) : Bool := (findOcc pat s).isSome

/-- Python `pat in s` on `String`s. -/
def strContains (s pat : String) : Bool := containsSub s.data pat.data

/-- Python `s.split(pat)` (fuelled; `pat` is never empty in the scripts). -/
def pySplitGo (pat : List Char) : Nat → List Char → List (List Char)
  | 0, s => [s]
  | fuel + 1, s =>
      match findOcc pat s with
      | none => [s]
      | some idx => s.take idx :: pySplitGo pat fuel (s.drop (idx + pat.length))

/-- Python `s.split(pat)`. -/
def pySplit (pat s : List Char) : List (List Char) := pySplitGo pat (s.length + 1) s

/-- Python `s.strip()`: drop whitespace from both ends. -/
def pyStrip (s : List Char) : List Char :=
  (((s.dropWhile wsChar).reverse).dropWhile wsChar).reverse

/-- Python `s.strip()` on `String`s. -/
def pyStripS (s : String) : String := String.mk (pyStrip s.data)

/-- State machine for Python `re.sub(r'\s+', ' ', s)`: every maximal
whitespace run becomes a single space.  The flag records whether the
previous character was whitespace. -/
def pyNormGo : Bool → List Char → List Char
  | _, [] => []
  | inWS, c :: t =>
      if wsChar c then
        if inWS then pyNormGo true t else ' ' :: pyNormGo true t
      else c :: pyNormGo false t

/-- Python `re.sub(r'\s+', ' ', s)`. -/
def pyNormWS (s : List Char) : List Char := pyNormGo false s

/-- Python `int` of a digit run. -/
def digitsToNat (ds : List Char) : Nat :=
  ds.foldl (fun n c => 10 * n + (c.toNat - '0'.toNat)) 0

/-- Does `\d{2}/\d{2}/\d{4}` match at the head of `s`? -/
def dateAt : List Char → Bool
  | d1 :: d2 :: '/' :: d3 :: d4 :: '/' :: d5 :: d6 :: d7 :: d8 :: _ =>
      d1.isDigit && d2.isDigit && d3.isDigit && d4.isDigit &&
      d5.isDigit && d6.isDigit && d7.isDigit && d8.isDigit
  | _ => false

/-- Leftmost match of `re.search(r'\d{2}/\d{2}/\d{4}', s)`. -/
def findDate : List Char → Option (List Char)
  | [] => none
  | c :: rest =>
      if dateAt (c :: rest) then some ((c :: rest).take 10) else findDate rest

/-- One `re.search(r'MARKER\s*([^0-9\n]+)', s)` attempt per occurrence of the
marker, retrying at later occurrences when the capture cannot match (the
capture is whitespace-backtracked exactly as the Python engine does on
newline-free input; `[^\d]+` of `extractRealQuestions.py` coincides with
`[^0-9\n]+` of `parseFordSurveyImproved.py` there). -/
def capGo (marker : List Char) : Nat → List Char → Option (List Char)
  | 0, _ => none
  | fuel + 1, s =>
      match findOcc marker s with
      | none => none
      | some idx =>
          let rest := s.drop (idx + marker.length)
          let ws := rest.takeWhile wsChar
          let t := rest.drop ws.length
          let run := t.takeWhile (fun c => ¬ c.isDigit)
          if run ≠ [] then some (pyStrip run)
          else if ws ≠ [] then some []
          else capGo marker fuel (s.drop (idx + 1))

/-- `re.search(r'Answered by:\s*([^0-9\n]+)', line)`, returning the stripped
capture when the search succeeds. -/
def ansByCapture (line : String) : Option String :=
  (capGo "Answered by:".data (line.length + 1) line.data).map String.mk

/-- The `givenAnswer` sub-object of an emitted question. -/
structure GivenAnswer where
  selectedOption : Option String
  comments : Option String
  answeredBy : Option String
  answeredDate : Option String
deriving DecidableEq

/-- One emitted question record. -/
structure QuestionRecord where
  questionId : String
  questionText : String
  helpText : Option String
  answerType : String
  options : List String
  givenAnswer : GivenAnswer
deriving DecidableEq

/-- One per-document section result. -/
structure SectionResult where
  sectionId : String
  sectionName : String
  riskLevel : Option String
  questions : List QuestionRecord
deriving DecidableEq

/-- A source document as the scripts see it: the `h1` title (when the tag
exists) and the stripped non-empty body lines. -/
structure HtmlDoc where
  h1Title : Option String
  lines : List String
deriving DecidableEq

/-!
## `parseFordSurveyImproved.py` — `parse_html_file` line scan

The scan uses `question_pattern = re.compile(rf'^.*?{section_id}\.(\d+)\s+(.+)$')`
with `re.match`.  On newline-free lines this matches iff some occurrence of
`section_id ++ "."` is followed by a non-empty digit run, then a whitespace
character, then at least one further character; the non-greedy prefix makes
the leftmost such occurrence the one captured, and group 1 is its full digit
run (shrinking the greedy `\d+` can never help since a digit is not `\s`).
-/

/-- After the digit run, `\s+(.+)$` asks for a whitespace character followed
by at least one more character (which may itself be whitespace). -/
def impAfterOk : List Char → Bool
  | a :: _ :: _ => wsChar a
  | _ => false

/-- Scan for the leftmost position satisfying the Improved question pattern;
returns group 1 (the digit run). -/
def impQNumGo (sidDot : List Char) : List Char → Option (List Char)
  | [] => none
  | c :: rest =>
      if sidDot.isPrefixOf (c :: rest) then
        let t := (c :: rest).drop sidDot.length
        let ds := t.takeWhile Char.isDigit
        if !ds.isEmpty && impAfterOk (t.drop ds.length) then some ds
        else impQNumGo sidDot rest
      else impQNumGo sidDot rest

/-- `question_pattern.match(line)` of `parseFordSurveyImproved.py`,
returning the question number (group 1) on success. -/
def impQNum (sid : String) (line : String) : Option String :=
  (impQNumGo (sid.data ++ ['.']) line.data).map String.mk

/-- Literals that end option collection in `parseFordSurveyImproved.py`. -/
def impTerms : List String :=
  ["Show possible answers", "Answered by:", "Date:", "Comments", "Data Location:"]

/-- Mutable locals of the Improved per-question lookahead loop. -/
structure ImpSt where
  qlines : List String
  helpText : Option String
  options : List String
  answeredBy : Option String
  answeredDate : Option String
  comments : Option String
  collectingQuestion : Bool
  collectingOptions : Bool
deriving DecidableEq

/-- Initial loop state (`collecting_question = True`, everything else empty). -/
def impSt0 : ImpSt := ⟨[], none, [], none, none, none, true, false⟩

/-- Outcome of one iteration of the Improved lookahead loop: `stop` breaks
out (next question or `Data Location:`), `next d st` advances `j` by `d`
(2 when a `Help Text` or `Comments` grab consumed the following line). -/
inductive ImpAct where
  | stop
  | next (d : Nat) (st : ImpSt)

/-- `collecting_question = False`. -/
def stCQOff (st : ImpSt) : ImpSt := { st with collectingQuestion := false }

/-- `collecting_question = False; help_text = nl2`. -/
def stHelp (st : ImpSt) (h : String) : ImpSt :=
  { st with collectingQuestion := false, helpText := some h }

/-- `collecting_question = False; collecting_options = True`. -/
def stOptsOn (st : ImpSt) : ImpSt :=
  { st with collectingQuestion := false, collectingOptions := true }

/-- `options.append(nl)`. -/
def stAddOpt (st : ImpSt) (o : String) : ImpSt := { st with options := st.options ++ [o] }

/-- `collecting_options = False`. -/
def stOptsOff (st : ImpSt) : ImpSt := { st with collectingOptions := false }

/-- `collecting_question = False; answered_by = v`. -/
def stAnsBy (st : ImpSt) (v : String) : ImpSt :=
  { st with collectingQuestion := false, answeredBy := some v }

/-- `answered_date = d`. -/
def stDate (st : ImpSt) (d : String) : ImpSt := { st with answeredDate := some d }

/-- `comments = c`. -/
def stComment (st : ImpSt) (c : String) : ImpSt := { st with comments := some c }

/-- `question_text_lines.append(nl)`, ending collection when `stop`. -/
def stAddQLine (st : ImpSt) (l : String) (stop : Bool) : ImpSt :=
  { st with qlines := st.qlines ++ [l],
            collectingQuestion := if stop then false else st.collectingQuestion }

/-- The body of the Improved lookahead loop for one line `nl`; `nextOk`
tells whether a following line exists and `nl2` is that line. -/
def impStep (sid nl : String) (nextOk : Bool) (nl2 : String) (st : ImpSt) : ImpAct :=
  if (impQNum sid nl).isSome then .stop
  else if nl = "Help Text" then
    if nextOk then
      if ¬ strContains nl2 "Please select" = true ∧ nl2.length < 500 then
        .next 2 (stHelp st nl2)
      else .next 1 (stCQOff st)
    else .next 1 (stCQOff st)
  else if strContains nl "Please select" && strContains nl "following options" then
    .next 1 (stOptsOn st)
  else if st.collectingOptions then
    if strStarts nl "Yes," || strStarts nl "No," then .next 1 (stAddOpt st nl)
    else if nl = "Not applicable" then .next 1 (stAddOpt st nl)
    else if nl ∈ impTerms then .next 1 (stOptsOff st)
    else .next 1 st
  else if strContains nl "Answered by:" then
    match ansByCapture nl with
    | some v => .next 1 (stAnsBy st v)
    | none => .next 1 (stCQOff st)
  else if strContains nl "Date:" || (findDate nl.data).isSome then
    match findDate nl.data with
    | some d => .next 1 (stDate st (String.mk d))
    | none => .next 1 st
  else if nl = "Comments" then
    if nextOk then
      if nl2 ∉ ["Data Location:", "Terms of Use"] then .next 2 (stComment st nl2)
      else .next 1 st
    else .next 1 st
  else if strStarts nl "Data Location:" then .stop
  else if st.collectingQuestion then
    if nl ∉ ["Help Text", "Comments", "Data Location:", "Show possible answers"] then
      .next 1 (stAddQLine st nl (decide ('?' ∈ nl.data)))
    else .next 1 st
  else .next 1 st

/-- The advance of a lookahead action (`0` for a break). -/
def impActD : ImpAct → Nat
  | .stop => 0
  | .next d _ => d

/-- The Improved inner lookahead loop (`while j < len(all_lines) and j < i + 50`),
fuelled; every iteration advances `j` by 1 or 2, so fuel 50 never runs out. -/
def impInner (sid : String) (lines : List String) (i : Nat) :
    Nat → Nat → ImpSt → Nat × ImpSt
  | 0, j, st => (j, st)
  | fuel + 1, j, st =>
    if j < lines.length ∧ j < i + 50 then
      match impStep sid (lines.getD j "") (decide (j + 1 < lines.length))
          (lines.getD (j + 1) "") st with
      | .stop => (j, st)
      | .next d st1 => impInner sid lines i fuel (j + d) st1
    else (j, st)

/-- `' '.join(question_text_lines).strip()`. -/
def pyJoinStrip (xs : List String) : String :=
  String.mk (pyStrip (String.intercalate " " xs).data)

/-- The record built after the Improved lookahead loop, including the
next-line fallback and the `'Question text not found'` placeholder. -/
def impFinishRecord (sid qnum : String) (lines : List String) (i : Nat)
    (st : ImpSt) : QuestionRecord :=
  let qt0 := pyJoinStrip st.qlines
  let qt1 := if qt0 ≠ "" then qt0
    else if i + 1 < lines.length then lines.getD (i + 1) "" else ""
  { questionId := sid ++ "." ++ qnum
    questionText := if qt1 ≠ "" then qt1 else "Question text not found"
    helpText := st.helpText
    answerType := "single-choice"
    options := st.options
    givenAnswer :=
      { selectedOption := none, comments := st.comments,
        answeredBy := st.answeredBy, answeredDate := st.answeredDate } }

/-- The Improved outer scan loop (`while i < len(all_lines)`), fuelled;
each iteration advances `i` by at least one, so fuel `lines.length` is enough. -/
def impOuter (sid : String) (lines : List String) :
    Nat → Nat → List QuestionRecord → List QuestionRecord
  | 0, _, acc => acc
  | fuel + 1, i, acc =>
    if i < lines.length then
      match impQNum sid (lines.getD i "") with
      | some qn =>
          impOuter sid lines fuel (impInner sid lines i 50 (i + 1) impSt0).1
            (acc ++ [impFinishRecord sid qn lines i (impInner sid lines i 50 (i + 1) impSt0).2])
      | none => impOuter sid lines fuel (i + 1) acc
    else acc

/-- The full Improved line scan of one document. -/
def improvedScan (sid : String) (lines : List String) : List QuestionRecord :=
  impOuter sid lines lines.length 0 []

/-- The Improved scan resumed at cursor position `i`. -/
def impScanFrom (sid : String) (lines : List String) (i : Nat) : List QuestionRecord :=
  impOuter sid lines (lines.length - i) i []

/-!
## `extractRealQuestions.py` — `extract_questions_from_section` line scan

The question pattern here is `re.search(rf'{section_id}\.(\d+)', line)`:
any occurrence of the section identifier, a dot and a digit run.  Options
are gathered with `re.findall` against
`(Yes,[^N]+(?:requirements|program|policy|plan|controls?|procedures?|processes?))`
(and the `No,` twin): the greedy `[^N]+` prefers the latest position at
which one of the alternation suffixes matches, branches being tried in
written order.
-/

/-- Scan for the leftmost `{sid}.` followed by a digit run; returns group 1. -/
def erqQNumGo (sidDot : List Char) : List Char → Option (List Char)
  | [] => none
  | c :: rest =>
      if sidDot.isPrefixOf (c :: rest) then
        let ds := ((c :: rest).drop sidDot.length).takeWhile Char.isDigit
        if !ds.isEmpty then some ds else erqQNumGo sidDot rest
      else erqQNumGo sidDot rest

/-- `re.search(rf'{section_id}\.(\d+)', line)` of `extractRealQuestions.py`. -/
def erqQNum (sid : String) (line : String) : Option String :=
  (erqQNumGo (sid.data ++ ['.']) line.data).map String.mk

/-- The suffix alternation of the option patterns, in the engine's branch
order (`controls?` tries the `s` first, and so on). -/
def erqWords : List (List Char) :=
  ["requirements".data, "program".data, "policy".data, "plan".data,
   "controls".data, "control".data, "procedures".data, "procedure".data,
   "processes".data, "processe".data]

/-- First alternation branch matching at the head of `s`. -/
def erqWordAt (s : List Char) : Option (List Char) :=
  erqWords.findSome? (fun w => if w.isPrefixOf s then some w else none)

/-- Backtracking of `[^N]+(?:...)`: try the longest non-`'N'` run first and
look for an alternation suffix right after it; on success return the
matched body (run plus suffix word) and its length. -/
def erqTryBody (rest : List Char) : Nat → Option (List Char × Nat)
  | 0 => none
  | k + 1 =>
      if (rest.take (k + 1)).all (fun c => c ≠ 'N') ∧ k + 1 ≤ rest.length then
        match erqWordAt (rest.drop (k + 1)) with
        | some w => some (rest.take (k + 1) ++ w, (k + 1) + w.length)
        | none => erqTryBody rest k
      else erqTryBody rest k

/-- `re.findall` for one of the two option patterns: scan left to right,
emitting each non-overlapping match and resuming after its end. -/
def erqFindallGo (pre : List Char) : Nat → List Char → List (List Char)
  | 0, _ => []
  | _ + 1, [] => []
  | fuel + 1, a :: t =>
      if pre.isPrefixOf (a :: t) then
        match erqTryBody ((a :: t).drop pre.length) (a :: t).length with
        | some (body, consumed) =>
            (pre ++ body) :: erqFindallGo pre fuel ((a :: t).drop (pre.length + consumed))
        | none => erqFindallGo pre fuel t
      else erqFindallGo pre fuel t

/-- All matches of the `Yes,…` option pattern in a line. -/
def erqFindallYes (line : String) : List String :=
  (erqFindallGo "Yes,".data (line.length + 1) line.data).map String.mk

/-- All matches of the `No,…` option pattern in a line. -/
def erqFindallNo (line : String) : List String :=
  (erqFindallGo "No,".data (line.length + 1) line.data).map String.mk

/-- Mutable locals of the `extractRealQuestions.py` lookahead loop
(answer metadata is read from the question line before the loop). -/
structure ErqSt where
  questionText : List Char
  helpText : Option String
  options : List String
  collectingQuestion : Bool
  collectingOptions : Bool
deriving DecidableEq

/-- Initial loop state. -/
def erqSt0 : ErqSt := ⟨[], none, [], true, false⟩

/-- `for opt in …: if opt not in options: options.append(opt.strip())`. -/
def erqAddOpt (os : List String) (o : String) : List String :=
  if o ∈ os then os else os ++ [pyStripS o]

/-- The option-extraction body: mark the options sub-state, run both
`findall`s with the duplicate guard, then the `Not applicable` guard. -/
def erqExtractOpts (nl : String) (st : ErqSt) : ErqSt :=
  let os1 := (erqFindallYes nl).foldl erqAddOpt st.options
  let os2 := (erqFindallNo nl).foldl erqAddOpt os1
  let os3 :=
    if strContains nl "Not applicable" ∧ "Not applicable" ∉ os2 then
      os2 ++ ["Not applicable"]
    else os2
  { st with collectingOptions := true, options := os3 }

/-- Outcome of the `if collecting_question:` block for one line: `cont`
models a `continue` (skip the option checks), `fall` falls through to them. -/
inductive ErqStage where
  | cont (st : ErqSt)
  | fall (st : ErqSt)

/-- The `if collecting_question:` block of the loop body: the `Help Text`
split, the `Please select` split, or plain text accumulation (a `?` ends
collection after appending). -/
def erqQTextStep (nl : String) (st : ErqSt) : ErqStage :=
  if st.collectingQuestion then
    if strContains nl "Help Text" then
      if (pySplit "Help Text".data nl.data).length > 1 ∧
          pyStrip ((pySplit "Help Text".data nl.data).getD 1 []) ≠ [] ∧
          ¬ containsSub ((pySplit "Help Text".data nl.data).getD 1 []) "Please select".data then
        .cont { st with
          questionText :=
            if pyStrip ((pySplit "Help Text".data nl.data).headD []) ≠ [] then
              st.questionText ++ ' ' :: pyStrip ((pySplit "Help Text".data nl.data).headD [])
            else st.questionText,
          collectingQuestion := false,
          helpText := some (String.mk (pyStrip ((pySplit "Help Text".data nl.data).getD 1 []))) }
      else
        .cont { st with
          questionText :=
            if pyStrip ((pySplit "Help Text".data nl.data).headD []) ≠ [] then
              st.questionText ++ ' ' :: pyStrip ((pySplit "Help Text".data nl.data).headD [])
            else st.questionText,
          collectingQuestion := false }
    else if strContains nl "Please select" then
      .cont { st with
        questionText :=
          if pyStrip ((pySplit "Please select".data nl.data).headD []) ≠ [] then
            st.questionText ++ ' ' :: pyStrip ((pySplit "Please select".data nl.data).headD [])
          else st.questionText,
        collectingQuestion := false, collectingOptions := true }
    else
      if nl ≠ "" ∧ ¬ strStarts nl "Data Location" then
        .fall { st with
          questionText := st.questionText ++ ' ' :: nl.data,
          collectingQuestion := if '?' ∈ nl.data then false else st.collectingQuestion }
      else .fall st
  else .fall st

/-- The `extractRealQuestions.py` inner lookahead loop
(`while j < len(lines) and j < i + 30`), fuelled; fuel 30 never runs out. -/
def erqInner (sid : String) (lines : List String) (i : Nat) :
    Nat → Nat → ErqSt → Nat × ErqSt
  | 0, j, st => (j, st)
  | fuel + 1, j, st =>
    if j < lines.length ∧ j < i + 30 then
      if (erqQNum sid (lines.getD j "")).isSome && decide (j > i + 2) then (j, st)
      else
        match erqQTextStep (lines.getD j "") st with
        | .cont st1 => erqInner sid lines i fuel (j + 1) st1
        | .fall st1 =>
            if strContains (lines.getD j "") "Please select" || st1.collectingOptions then
              if strContains (lines.getD j "") "Show possible answers" ||
                  strContains (lines.getD j "") "Comments" then
                (j, { erqExtractOpts (lines.getD j "") st1 with collectingOptions := false })
              else erqInner sid lines i fuel (j + 1) (erqExtractOpts (lines.getD j "") st1)
            else erqInner sid lines i fuel (j + 1) st1
    else (j, st)

/-- The `extractRealQuestions.py` outer scan loop, fuelled by the line
count; an empty cleaned question text (or one starting with
`Data Location`) drops the record. -/
def erqOuter (sid : String) (lines : List String) :
    Nat → Nat → List QuestionRecord → List QuestionRecord
  | 0, _, acc => acc
  | fuel + 1, i, acc =>
    if i < lines.length then
      match erqQNum sid (lines.getD i "") with
      | some qn =>
          erqOuter sid lines fuel (erqInner sid lines i 30 (i + 1) erqSt0).1
            (if pyNormWS (pyStrip (erqInner sid lines i 30 (i + 1) erqSt0).2.questionText) ≠ [] ∧
                ¬ "Data Location".data.isPrefixOf
                  (pyNormWS (pyStrip (erqInner sid lines i 30 (i + 1) erqSt0).2.questionText)) then
              acc ++ [{ questionId := sid ++ "." ++ qn,
                        questionText := String.mk
                          (pyNormWS (pyStrip (erqInner sid lines i 30 (i + 1) erqSt0).2.questionText)),
                        helpText := (erqInner sid lines i 30 (i + 1) erqSt0).2.helpText,
                        answerType := "single-choice",
                        options := (erqInner sid lines i 30 (i + 1) erqSt0).2.options,
                        givenAnswer := ⟨none, none,
                          (if strContains (lines.getD i "") "Answered by:" then
                            ansByCapture (lines.getD i "") else none),
                          (if strContains (lines.getD i "") "Date:" then
                            (findDate (lines.getD i "").data).map String.mk else none)⟩ }]
            else acc)
      | none => erqOuter sid lines fuel (i + 1) acc
    else acc

/-- The full `extractRealQuestions.py` line scan of one document. -/
def erqScan (sid : String) (lines : List String) : List QuestionRecord :=
  erqOuter sid lines lines.length 0 []

/-!
## `extractFord2024Survey.py` / `parseFordSurvey.py` — question-start patterns
and the scoring lookahead
-/

/-- The character class `[\dA-Z.]` of `extractFord2024Survey.py`. -/
def fordQSClass (c : Char) : Bool := c.isDigit || ('A' ≤ c && c ≤ 'Z') || c == '.'

/-- Scan for an occurrence of `pat` (the section identifier and a dot,
`k` characters long) followed by at least one `[\dA-Z.]` character. -/
def fordGo (pat : List Char) (k : Nat) : List Char → Bool
  | [] => false
  | c :: rest =>
      if pat.isPrefixOf (c :: rest) then
        match (c :: rest).drop k with
        | d :: _ => if fordQSClass d then true else fordGo pat k rest
        | [] => fordGo pat k rest
      else fordGo pat k rest

/-- `re.search(rf'{section_id}\.[\dA-Z.]+', line)` of
`extractFord2024Survey.py`, as a classifier. -/
def ford2024QS (sid : String) (line : String) : Bool :=
  fordGo (sid.data ++ ['.']) (sid.data.length + 1) line.data

/-- The `([A-Z])\.(\d+)$` core of the `parseFordSurvey.py` pattern,
anchored to the end of the line. -/
def pfsCore (s : List Char) : Option (Char × List Char) :=
  match s with
  | c :: '.' :: rest =>
      if 'A' ≤ c ∧ c ≤ 'Z' then
        let ds := rest.takeWhile Char.isDigit
        if !ds.isEmpty ∧ rest.drop ds.length = [] then some (c, ds) else none
      else none
  | _ => none

/-- `re.match(r'^(?:\d+\.\s*)?([A-Z])\.(\d+)$', line)` of
`parseFordSurvey.py`: the whole line must be an optional `n.` prefix, an
uppercase letter, a dot and a purely numeric qualifier. -/
def pfsQS (line : String) : Option (String × String) :=
  let s := line.data
  let ds0 := s.takeWhile Char.isDigit
  let withNum :=
    if !ds0.isEmpty then
      match s.drop ds0.length with
      | '.' :: rest => pfsCore (rest.dropWhile wsChar)
      | _ => none
    else none
  match withNum with
  | some (c, ds) => some (String.mk [c], String.mk ds)
  | none => (pfsCore s).map (fun p => (String.mk [p.1], String.mk p.2))

/-- `re.search(r'Likelihood:\s*(\d+),\s*Overall impact:\s*(\d+)', s)` tried
at the head of `s`. -/
def scoreAt (s : List Char) : Option (Nat × Nat) :=
  if "Likelihood:".data.isPrefixOf s then
    let t := (s.drop 11).dropWhile wsChar
    let d1 := t.takeWhile Char.isDigit
    if !d1.isEmpty then
      match t.drop d1.length with
      | ',' :: u =>
          let u2 := u.dropWhile wsChar
          if "Overall impact:".data.isPrefixOf u2 then
            let v := (u2.drop 15).dropWhile wsChar
            let d2 := v.takeWhile Char.isDigit
            if !d2.isEmpty then some (digitsToNat d1, digitsToNat d2) else none
          else none
      | _ => none
    else none
  else none

/-- Leftmost position at which the scoring pattern matches. -/
def scoreSearch : List Char → Option (Nat × Nat)
  | [] => none
  | c :: rest =>
      match scoreAt (c :: rest) with
      | some r => some r
      | none => scoreSearch rest

/-- The per-line scoring test of `extractFord2024Survey.py`: the two
substring guards, then the regular-expression search. -/
def scoreCheck (line : String) : Option (Nat × Nat) :=
  if strContains line "Likelihood:" ∧ strContains line "impact:" then
    scoreSearch line.data
  else none

/-- `for j in range(i, min(i + 50, len(lines)))` with a break at the first
line passing `scoreCheck` (fuelled; the window has at most 50 lines). -/
def scoringGo (lines : List String) (i : Nat) : Nat → Nat → Option Nat × Option Nat
  | 0, _ => (none, none)
  | fuel + 1, j =>
      if j < min (i + 50) lines.length then
        match scoreCheck (lines.getD j "") with
        | some nm => (some nm.1, some nm.2)
        | none => scoringGo lines i fuel (j + 1)
      else (none, none)

/-- The scoring lookahead of `extractFord2024Survey.py` for a question
opened at line `i`: the `(likelihood, overall_impact)` pair stored into the
emitted record (both components stay `None` when no line matches). -/
def scoringLookahead (lines : List String) (i : Nat) : Option Nat × Option Nat :=
  scoringGo lines i 50 i

/-!
## `extractFord2024Survey.py` — the full `extract_questions_from_section` scan

The metadata regexes back off over their greedy whitespace runs exactly as
the Python engine does on newline-free input, and each lazy capture `(.+?)`
stops at the first later position where its terminator alternative (or the
end of the line) matches.
-/

/-- Capture of `rf'{section_id}\.([\dA-Z.]+)'`: the leftmost occurrence of
the identifier and a dot followed by at least one `[\dA-Z.]` character;
group 1 is the maximal class run (nothing follows it in the pattern). -/
def f24QNumGo (sidDot : List Char) : List Char → Option (List Char)
  | [] => none
  | c :: rest =>
      if sidDot.isPrefixOf (c :: rest) then
        if !(((c :: rest).drop sidDot.length).takeWhile fordQSClass).isEmpty then
          some (((c :: rest).drop sidDot.length).takeWhile fordQSClass)
        else f24QNumGo sidDot rest
      else f24QNumGo sidDot rest

/-- Model of `re.search(rf'{section_id}\.([\dA-Z.]+)', line)` of
`extractFord2024Survey.py`, returning group 1. -/
def f24QNum (sid : String) (line : String) : Option String :=
  (f24QNumGo (sid.data ++ ['.']) line.data).map String.mk

/-- Model of `\s+(.+?)(?:TERM|$)` at the head of `rest`: the greedy `\s+`
prefers its maximal run; the lazy capture then stops at the first later
position where the terminator literal begins, else runs to the end of the
line; when the whitespace run reaches the end of the line one whitespace
character is given back to feed the capture, which needs at least one. -/
def lazyCapTo (term rest : List Char) : Option (List Char) :=
  if (rest.takeWhile wsChar).isEmpty then none
  else if rest.drop (rest.takeWhile wsChar).length ≠ [] then
    match findOcc term ((rest.drop (rest.takeWhile wsChar).length).drop 1) with
    | some m => some ((rest.drop (rest.takeWhile wsChar).length).take (m + 1))
    | none => some (rest.drop (rest.takeWhile wsChar).length)
  else if 2 ≤ (rest.takeWhile wsChar).length then
    some [(rest.takeWhile wsChar).getLastD ' ']
  else none

/-- Model of `re.search(rf'{section_id}\.{re.escape(q_num)}\s+(.+?)(?:Answered by:|$)',
line)`: one capture attempt per occurrence of the escaped identifier literal. -/
def f24SelGo (lit : List Char) : Nat → List Char → Option (List Char)
  | 0, _ => none
  | fuel + 1, s =>
      match findOcc lit s with
      | none => none
      | some idx =>
          match lazyCapTo "Answered by:".data (s.drop (idx + lit.length)) with
          | some cap => some cap
          | none => f24SelGo lit fuel (s.drop (idx + 1))

/-- The `selected_option` extraction of `extractFord2024Survey.py`: the
stripped capture, dropped when it starts like question text. -/
def f24SelOpt (sid qnum : String) (line : String) : Option String :=
  match f24SelGo (sid.data ++ '.' :: qnum.data) (line.length + 1) line.data with
  | none => none
  | some cap =>
      if ¬ (["Is there", "Does", "Has", "Have", "Are", "Do", "Will"].any
            (fun p => strStarts (String.mk (pyStrip cap)) p)) = true then
        some (String.mk (pyStrip cap))
      else none

/-- The character class `[A-Za-z\s]` of the `Answered by:` capture. -/
def f24AnsClass (c : Char) : Bool := c.isAlpha || wsChar c

/-- One attempt of `([A-Za-z\s]+?)(?:Date:|$)` at capture start `t`: the
lazy class capture stops at the first reachable `Date:` position; failing
that it must span the whole rest of the line. -/
def f24AnsAt (t : List Char) : Option (List Char) :=
  if (t.takeWhile f24AnsClass).isEmpty then none
  else
    match findOcc "Date:".data (t.drop 1) with
    | some m =>
        if m + 1 ≤ (t.takeWhile f24AnsClass).length then some (t.take (m + 1))
        else if (t.takeWhile f24AnsClass).length = t.length then some t
        else none
    | none => if (t.takeWhile f24AnsClass).length = t.length then some t else none

/-- Backtracking of the greedy `\s*` before the class capture: the maximal
whitespace run is tried first, characters being given back one at a time
down to the empty run. -/
def f24AnsTry (rest : List Char) : Nat → Option (List Char)
  | 0 => f24AnsAt rest
  | w + 1 =>
      match f24AnsAt (rest.drop (w + 1)) with
      | some cap => some cap
      | none => f24AnsTry rest w

/-- One `re.search(r'Answered by:\s*([A-Za-z\s]+?)(?:Date:|$)', line)`
attempt per occurrence of the marker literal (12 characters long). -/
def f24AnsGo : Nat → List Char → Option (List Char)
  | 0, _ => none
  | fuel + 1, s =>
      match findOcc "Answered by:".data s with
      | none => none
      | some idx =>
          match f24AnsTry (s.drop (idx + 12))
              ((s.drop (idx + 12)).takeWhile wsChar).length with
          | some cap => some cap
          | none => f24AnsGo fuel (s.drop (idx + 1))

/-- The `answered_by` extraction of `extractFord2024Survey.py` (the script
runs the search only when the line contains the marker). -/
def f24AnsBy (line : String) : Option String :=
  (f24AnsGo (line.length + 1) line.data).map (fun cap => String.mk (pyStrip cap))

/-- Model of `re.search(r'Date:\s*(\d{2}/\d{2}/\d{4})', line)`: after the
greedy whitespace run the date shape must follow at once (a shorter run
would put a whitespace character where a digit is required). -/
def f24DateGo : Nat → List Char → Option (List Char)
  | 0, _ => none
  | fuel + 1, s =>
      match findOcc "Date:".data s with
      | none => none
      | some idx =>
          if dateAt ((s.drop (idx + 5)).dropWhile wsChar) then
            some (((s.drop (idx + 5)).dropWhile wsChar).take 10)
          else f24DateGo fuel (s.drop (idx + 1))

/-- The `answered_date` extraction of `extractFord2024Survey.py`. -/
def f24Date (line : String) : Option String :=
  (f24DateGo (line.length + 1) line.data).map String.mk

/-- Middle of the single-line question pattern, `\s+LIT` followed by the
`\s+(.+?)(?:Help Text|$)` tail: the greedy `\s+` tries its longest run
first, giving characters back while the identifier literal or the tail
fails. -/
def f24SLBody (lit after : List Char) : Nat → Option (List Char)
  | 0 => none
  | w + 1 =>
      if w + 1 ≤ (after.takeWhile wsChar).length ∧
          lit.isPrefixOf (after.drop (w + 1)) then
        match lazyCapTo "Help Text".data ((after.drop (w + 1)).drop lit.length) with
        | some cap => some cap
        | none => f24SLBody lit after w
      else f24SLBody lit after w

/-- Model of `re.search(rf'\d+\.\s+{section_id}\.{re.escape(q_num)}\s+(.+?)(?:Help Text|$)',
line)`: a match can begin at any digit, and only the maximal digit run can
reach the following dot. -/
def f24SameLineGo (lit : List Char) : Nat → List Char → Option (List Char)
  | 0, _ => none
  | _ + 1, [] => none
  | fuel + 1, c :: rest =>
      if c.isDigit then
        match (c :: rest).drop ((c :: rest).takeWhile Char.isDigit).length with
        | '.' :: after =>
            match f24SLBody lit after (after.takeWhile wsChar).length with
            | some cap => some cap
            | none => f24SameLineGo lit fuel rest
        | _ => f24SameLineGo lit fuel rest
      else f24SameLineGo lit fuel rest

/-- The single-line format test of `extractFord2024Survey.py`, returning
the stripped question text (group 1) on success. -/
def f24SameLine (sid qnum : String) (line : String) : Option String :=
  (f24SameLineGo (sid.data ++ '.' :: qnum.data) (line.length + 1) line.data).map
    (fun cap => String.mk (pyStrip cap))

/-- Lookahead alternatives of the same-line `Yes,` option pattern. -/
def f24LookTermsY : List (List Char) :=
  ["No,".data, "Not applicable".data, "Show possible".data]

/-- Lookahead alternatives of the same-line `No,` option pattern. -/
def f24LookTermsN : List (List Char) :=
  ["Not applicable".data, "Show possible".data, "Comments".data]

/-- The lazy `[^N]+?` with a lookahead: the shortest non-empty run of
characters other than `'N'` after which one of the alternatives begins
(the lookahead consumes nothing). -/
def f24OptCap (terms : List (List Char)) (t : List Char) : Option (List Char) :=
  (List.range t.length).findSome? (fun c =>
    if ((t.take (c + 1)).all (fun ch => ch ≠ 'N')) ∧
        terms.any (fun w => w.isPrefixOf (t.drop (c + 1))) then
      some (t.take (c + 1))
    else none)

/-- Search for one of the same-line option patterns: one capture attempt
per occurrence of the prefix literal. -/
def f24OptSearch (pre : List Char) (terms : List (List Char)) :
    Nat → List Char → Option (List Char)
  | 0, _ => none
  | fuel + 1, s =>
      match findOcc pre s with
      | none => none
      | some idx =>
          match f24OptCap terms (s.drop (idx + pre.length)) with
          | some body => some (pre ++ body)
          | none => f24OptSearch pre terms fuel (s.drop (idx + 1))

/-- Model of `re.search(r'(Yes,[^N]+?)(?=No,|Not applicable|Show possible)', line)`,
the captured group stripped. -/
def f24YesOpt (line : String) : Option String :=
  (f24OptSearch "Yes,".data f24LookTermsY (line.length + 1) line.data).map
    (fun m => String.mk (pyStrip m))

/-- Model of `re.search(r'(No,[^N]+?)(?=Not applicable|Show possible|Comments)', line)`,
the captured group stripped. -/
def f24NoOpt (line : String) : Option String :=
  (f24OptSearch "No,".data f24LookTermsN (line.length + 1) line.data).map
    (fun m => String.mk (pyStrip m))

/-- Python `s.split(pat, 1)[1]` for a contained `pat`: everything after
the first occurrence. -/
def pySplitAfter1 (pat s : List Char) : List Char :=
  match findOcc pat s with
  | some idx => s.drop (idx + pat.length)
  | none => s

/-- Python `s.split(pat)[0]`: everything before the first occurrence. -/
def pySplitBefore1 (pat s : List Char) : List Char :=
  match findOcc pat s with
  | some idx => s.take idx
  | none => s

/-- The same-line help-text extraction (`line.split('Help Text', 1)`, then
the part before `Please select`; the help text stays `None` when the
post-marker fragment lacks `Please select`). -/
def f24SLHelpText (line : String) : Option String :=
  if strContains line "Help Text" then
    if containsSub (pySplitAfter1 "Help Text".data line.data) "Please select".data then
      some (String.mk (pyStrip (pySplitBefore1 "Please select".data
        (pySplitAfter1 "Help Text".data line.data))))
    else none
  else none

/-- The same-line option extraction (no duplicate guards in this branch). -/
def f24SLOptions (line : String) : List String :=
  (match (if strContains line "Yes," then f24YesOpt line else none) with
   | some o => [o]
   | none => []) ++
  (match (if strContains line "No," then f24NoOpt line else none) with
   | some o => [o]
   | none => []) ++
  (if strContains line "Not applicable" then ["Not applicable"] else [])

/-- The `scoring` sub-object of an `extractFord2024Survey.py` record. -/
structure Scoring where
  likelihood : Option Nat
  overallImpact : Option Nat
deriving DecidableEq

/-- One record emitted by `extractFord2024Survey.py` (the only script
whose records carry scoring data). -/
structure F24Record where
  questionId : String
  questionText : String
  helpText : Option String
  answerType : String
  options : List String
  scoring : Scoring
  givenAnswer : GivenAnswer
deriving DecidableEq

/-- Mutable locals of the multi-line lookahead loop of
`extractFord2024Survey.py` (`collecting_comments` is written but never
read by the script). -/
structure F24St where
  qText : List Char
  helpText : Option String
  options : List String
  comments : Option String
  collectingQ : Bool
  collectingO : Bool
  collectingC : Bool
deriving DecidableEq

/-- Initial loop state. -/
def f24St0 : F24St := ⟨[], none, [], none, true, false, false⟩

/-- The `Help Text` branch of the question-text phase: the fragment before
the first marker joins the question text; the stripped fragment between
the first two markers becomes the help text unless it starts with
`Please select`, keeping only what precedes a contained `Please select`. -/
def f24P1Help (nl : String) (st : F24St) : F24St :=
  { st with
    qText :=
      if pyStrip ((pySplit "Help Text".data nl.data).headD []) ≠ [] then
        st.qText ++ ' ' :: pyStrip ((pySplit "Help Text".data nl.data).headD [])
      else st.qText,
    collectingQ := false,
    helpText :=
      if (pySplit "Help Text".data nl.data).length > 1 ∧
          pyStrip ((pySplit "Help Text".data nl.data).getD 1 []) ≠ [] ∧
          ¬ "Please select".data.isPrefixOf
            (pyStrip ((pySplit "Help Text".data nl.data).getD 1 [])) then
        (if containsSub (pyStrip ((pySplit "Help Text".data nl.data).getD 1 []))
            "Please select".data then
          some (String.mk (pyStrip (pySplitBefore1 "Please select".data
            (pyStrip ((pySplit "Help Text".data nl.data).getD 1 [])))))
        else some (String.mk (pyStrip ((pySplit "Help Text".data nl.data).getD 1 []))))
      else st.helpText }

/-- Outcome of the question-text phase: `cont` models the `continue`
statements, `fall` falls through to the option and comment phases. -/
inductive F24Stage where
  | cont (st : F24St)
  | fall (st : F24St)

/-- The `if collecting_question:` block of the multi-line loop
(`extractFord2024Survey.py` additionally excludes `Comments` and
`Likelihood` prefixes from plain text collection). -/
def f24QTextStep (nl : String) (st : F24St) : F24Stage :=
  if st.collectingQ then
    if strContains nl "Help Text" then .cont (f24P1Help nl st)
    else if strContains nl "Please select" then
      .cont { st with
        qText :=
          if pyStrip ((pySplit "Please select".data nl.data).headD []) ≠ [] then
            st.qText ++ ' ' :: pyStrip ((pySplit "Please select".data nl.data).headD [])
          else st.qText,
        collectingQ := false, collectingO := true }
    else if nl ≠ "" ∧ ¬ (strStarts nl "Data Location" ∨ strStarts nl "Comments" ∨
        strStarts nl "Likelihood") then
      .fall { st with
        qText := st.qText ++ ' ' :: nl.data,
        collectingQ := if '?' ∈ nl.data then false else st.collectingQ }
    else .fall st
  else .fall st

/-- Stop prefixes of the `yes_opt` continuation loop. -/
def f24ContStopsY : List String := ["No,", "Not applicable", "Show possible", "Comments"]

/-- Stop prefixes of the `no_opt` continuation loop. -/
def f24ContStopsN : List String := ["Yes,", "Not applicable", "Show possible", "Comments"]

/-- The option-continuation loop: append following lines to the option
until a stop prefix, an empty line, a question-pattern line or the end of
the document; returns the final `k` and the accumulated option text. -/
def f24Cont (stops : List String) (sid : String) (lines : List String) :
    Nat → Nat → List Char → Nat × List Char
  | 0, k, acc => (k, acc)
  | fuel + 1, k, acc =>
      if k < lines.length ∧ ¬ stops.any (fun p => strStarts (lines.getD k "") p) then
        if lines.getD k "" ≠ "" ∧ ¬ ford2024QS sid (lines.getD k "") then
          f24Cont stops sid lines fuel (k + 1) (acc ++ ' ' :: (lines.getD k "").data)
        else (k, acc)
      else (k, acc)

/-- Option collection ends on a line containing `Show possible answers` or
equal to `Comments` (the latter also marks the comment sub-state). -/
def f24P2Show (nl : String) (st : F24St) : F24St :=
  if strContains nl "Show possible answers" ∨ nl = "Comments" then
    { st with
      collectingO := false,
      collectingC := if nl = "Comments" then true else st.collectingC }
  else st

/-- The option phase (`if collecting_options or 'Please select' in next_line:`),
returning the base index the loop continues from (`k - 1` after an option
continuation, as in the script) and the updated state; the raw option is
tested for membership but appended stripped. -/
def f24Phase2 (sid : String) (lines : List String) (j : Nat) (nl : String)
    (st : F24St) : Nat × F24St :=
  if st.collectingO ∨ strContains nl "Please select" then
    if strStarts nl "Yes," then
      ((f24Cont f24ContStopsY sid lines lines.length (j + 1) nl.data).1 - 1,
       f24P2Show nl { st with
         collectingO := true,
         options := erqAddOpt st.options
           (String.mk (f24Cont f24ContStopsY sid lines lines.length (j + 1) nl.data).2) })
    else if strStarts nl "No," then
      ((f24Cont f24ContStopsN sid lines lines.length (j + 1) nl.data).1 - 1,
       f24P2Show nl { st with
         collectingO := true,
         options := erqAddOpt st.options
           (String.mk (f24Cont f24ContStopsN sid lines lines.length (j + 1) nl.data).2) })
    else if nl = "Not applicable" ∧ "Not applicable" ∉ st.options then
      (j, f24P2Show nl { st with
         collectingO := true,
         options := st.options ++ ["Not applicable"] })
    else (j, f24P2Show nl { st with collectingO := true })
  else (j, st)

/-- The comment phase: on a `Comments` line the next line is read (unless
it opens a data-location or scoring block); either way the loop then
advances by exactly one from the phase-2 base index. -/
def f24P3St (lines : List String) (j2 : Nat) (nl : String) (st : F24St) : F24St :=
  if nl = "Comments" then
    { st with
      collectingC := true,
      comments :=
        if j2 + 1 < lines.length ∧
            ¬ (strStarts (lines.getD (j2 + 1) "") "Data Location" ∨
               strStarts (lines.getD (j2 + 1) "") "Likelihood") then
          some (lines.getD (j2 + 1) "")
        else st.comments }
  else st

/-- Outcome of one multi-line loop iteration: `brk` models the two `break`
statements, `goto` carries the next loop index (`j + 1`, or `k` after an
option continuation: `j = k - 1` followed by the bottom `j += 1`). -/
inductive F24Act where
  | brk
  | goto (j2 : Nat) (st : F24St)

/-- The loop index carried by an action (`d` for a break). -/
def f24ActJ (a : F24Act) (d : Nat) : Nat :=
  match a with
  | .brk => d
  | .goto j2 _ => j2

/-- The body of the multi-line lookahead loop of `extractFord2024Survey.py`
for the line at index `j`. -/
def f24Step (sid : String) (lines : List String) (i j : Nat) (st : F24St) : F24Act :=
  if ford2024QS sid (lines.getD j "") ∧ i + 2 < j then .brk
  else if strStarts (lines.getD j "") "Data Location:" ∨
      strStarts (lines.getD j "") "Create a new task" then .brk
  else
    match f24QTextStep (lines.getD j "") st with
    | .cont st1 => .goto (j + 1) st1
    | .fall st1 =>
        .goto ((f24Phase2 sid lines j (lines.getD j "") st1).1 + 1)
          (f24P3St lines (f24Phase2 sid lines j (lines.getD j "") st1).1 (lines.getD j "")
            (f24Phase2 sid lines j (lines.getD j "") st1).2)

/-- The multi-line lookahead loop (`while j < len(lines) and j < i + 40`),
fuelled; every iteration advances `j` by at least one, so fuel 40 never
runs out. -/
def f24Inner (sid : String) (lines : List String) (i : Nat) :
    Nat → Nat → F24St → Nat × F24St
  | 0, j, st => (j, st)
  | fuel + 1, j, st =>
    if j < lines.length ∧ j < i + 40 then
      match f24Step sid lines i j st with
      | .brk => (j, st)
      | .goto j2 st1 => f24Inner sid lines i fuel j2 st1
    else (j, st)

/-- The record of the single-line format branch (comments are never set
there). -/
def f24SingleRec (sid qnum : String) (lines : List String) (i : Nat)
    (qt : String) : F24Record :=
  { questionId := sid ++ "." ++ qnum
    questionText := qt
    helpText := f24SLHelpText (lines.getD i "")
    answerType := "single-choice"
    options := f24SLOptions (lines.getD i "")
    scoring := ⟨(scoringLookahead lines i).1, (scoringLookahead lines i).2⟩
    givenAnswer := ⟨f24SelOpt sid qnum (lines.getD i ""), none,
      (if strContains (lines.getD i "") "Answered by:" then f24AnsBy (lines.getD i "")
       else none),
      (if strContains (lines.getD i "") "Date:" then f24Date (lines.getD i "") else none)⟩ }

/-- The record of the multi-line branch, with the stripped and
whitespace-normalised question text. -/
def f24MultiRec (sid qnum : String) (lines : List String) (i : Nat)
    (st : F24St) : F24Record :=
  { questionId := sid ++ "." ++ qnum
    questionText := String.mk (pyNormWS (pyStrip st.qText))
    helpText := st.helpText
    answerType := "single-choice"
    options := st.options
    scoring := ⟨(scoringLookahead lines i).1, (scoringLookahead lines i).2⟩
    givenAnswer := ⟨f24SelOpt sid qnum (lines.getD i ""), st.comments,
      (if strContains (lines.getD i "") "Answered by:" then f24AnsBy (lines.getD i "")
       else none),
      (if strContains (lines.getD i "") "Date:" then f24Date (lines.getD i "") else none)⟩ }

/-- The outer scan loop of `extract_questions_from_section`
(`extractFord2024Survey.py`), fuelled by the line count: the single-line
branch advances the cursor by one, the multi-line branch jumps it to the
lookahead result (at least `i + 1`). -/
def f24Outer (sid : String) (lines : List String) :
    Nat → Nat → List F24Record → List F24Record
  | 0, _, acc => acc
  | fuel + 1, i, acc =>
    if i < lines.length then
      if ford2024QS sid (lines.getD i "") then
        match f24QNum sid (lines.getD i "") with
        | some qnum =>
            match f24SameLine sid qnum (lines.getD i "") with
            | some qt =>
                f24Outer sid lines fuel (i + 1)
                  (acc ++ if qt ≠ "" then [f24SingleRec sid qnum lines i qt] else [])
            | none =>
                f24Outer sid lines fuel (f24Inner sid lines i 40 (i + 1) f24St0).1
                  (acc ++
                    if String.mk (pyNormWS (pyStrip
                          (f24Inner sid lines i 40 (i + 1) f24St0).2.qText)) ≠ "" ∧
                        ¬ strStarts (String.mk (pyNormWS (pyStrip
                          (f24Inner sid lines i 40 (i + 1) f24St0).2.qText)))
                          "Data Location" then
                      [f24MultiRec sid qnum lines i (f24Inner sid lines i 40 (i + 1) f24St0).2]
                    else [])
        | none => f24Outer sid lines fuel (i + 1) acc
      else f24Outer sid lines fuel (i + 1) acc
    else acc

/-- The full `extractFord2024Survey.py` line scan of one document. -/
def f24Scan (sid : String) (lines : List String) : List F24Record :=
  f24Outer sid lines lines.length 0 []

/-!
## `parseFordSurveyImproved.py` — title parsing and the batch loop of `main`
-/

/-- Leftmost index of a character in a list. -/
def firstIdx (ch : Char) : List Char → Option Nat
  | [] => none
  | c :: rest => if c = ch then some 0 else (firstIdx ch rest).map (· + 1)

/-- `\((.+?)\)` after the opening parenthesis: at least one content
character, then the first closing parenthesis. -/
def parenGroup : List Char → Option (List Char)
  | [] => none
  | a :: r => (firstIdx ')' r).map (fun idx => a :: r.take idx)

/-- `\s*-\s*\((.+?)\)` at the head of `t`, returning the parenthesised group. -/
def sepParen (t : List Char) : Option (List Char) :=
  match t.dropWhile wsChar with
  | '-' :: v =>
      match v.dropWhile wsChar with
      | '(' :: x => parenGroup x
      | _ => none
  | _ => none

/-- The non-greedy `(.+?)\s*-\s*\((.+?)\)`: grow group 2 one character at a
time and stop at the first position where the separator matches. -/
def ngScan (acc : List Char) : List Char → Option (List Char × List Char)
  | [] => none
  | c :: rest =>
      match sepParen rest with
      | some g3 => some (acc ++ [c], g3)
      | none => ngScan (acc ++ [c]) rest

/-- `\s*(.+?)\s*-\s*\((.+?)\)`: the greedy `\s*` prefers swallowing the
longest whitespace prefix, backtracking one character at a time. -/
def ngWsGo (body : List Char) : Nat → Option (List Char × List Char)
  | 0 => ngScan [] body
  | k + 1 =>
      match ngScan [] (body.drop (k + 1)) with
      | some r => some r
      | none => ngWsGo body k

/-- Entry point for the combined `\s*(.+?)\s*-\s*\((.+?)\)` match. -/
def ngWithWs (body : List Char) : Option (List Char × List Char) :=
  ngWsGo body (body.takeWhile wsChar).length

/-- `re.search(r'Section ([A-Z]):\s*(.+?)\s*-\s*\((.+?)\)', t)`. -/
def titleP1 : List Char → Option (Char × List Char × List Char)
  | [] => none
  | c :: rest =>
      if "Section ".data.isPrefixOf (c :: rest) then
        match (c :: rest).drop 8 with
        | sc :: ':' :: body =>
            if 'A' ≤ sc ∧ sc ≤ 'Z' then
              match ngWithWs body with
              | some (g2, g3) => some (sc, g2, g3)
              | none => titleP1 rest
            else titleP1 rest
        | _ => titleP1 rest
      else titleP1 rest

/-- `re.search(r'Section ([A-Z])\s*-\s*(.+?)\s*-\s*\((.+?)\)', t)`. -/
def titleP2 : List Char → Option (Char × List Char × List Char)
  | [] => none
  | c :: rest =>
      if "Section ".data.isPrefixOf (c :: rest) then
        match (c :: rest).drop 8 with
        | sc :: body0 =>
            if 'A' ≤ sc ∧ sc ≤ 'Z' then
              match body0.dropWhile wsChar with
              | '-' :: v =>
                  match ngWithWs v with
                  | some (g2, g3) => some (sc, g2, g3)
                  | none => titleP2 rest
              | _ => titleP2 rest
            else titleP2 rest
        | _ => titleP2 rest
      else titleP2 rest

/-- The character class `[:\s-]` of the third title pattern. -/
def titleP3Class (c : Char) : Bool := c == ':' || wsChar c || c == '-'

/-- `re.search(r'Section ([A-Z])[:\s-]+(.+)', t)`; when the greedy class run
leaves nothing for `(.+)`, one class character is given back. -/
def titleP3 : List Char → Option (Char × List Char)
  | [] => none
  | c :: rest =>
      if "Section ".data.isPrefixOf (c :: rest) then
        match (c :: rest).drop 8 with
        | sc :: body0 =>
            if 'A' ≤ sc ∧ sc ≤ 'Z' then
              let cls := body0.takeWhile titleP3Class
              if cls.isEmpty then titleP3 rest
              else if !(body0.drop cls.length).isEmpty then
                some (sc, body0.drop cls.length)
              else if 2 ≤ cls.length then some (sc, body0.drop (cls.length - 1))
              else titleP3 rest
            else titleP3 rest
        | _ => titleP3 rest
      else titleP3 rest

/-- Is there a closing parenthesis here whose suffix is all whitespace? -/
def closeWsEnd : List Char → Bool
  | [] => false
  | c :: t => (c == ')' && t.all wsChar) || closeWsEnd t

/-- Does `\s*-\s*\(.+?\)\s*$` match at the head of `s` (through to the end)? -/
def trailParenAt (s : List Char) : Bool :=
  match s.dropWhile wsChar with
  | '-' :: v =>
      match v.dropWhile wsChar with
      | '(' :: x =>
          match x with
          | _ :: r => closeWsEnd r
          | [] => false
      | _ => false
  | _ => false

/-- Leftmost position where the trailing-parenthesis pattern matches. -/
def stpGo : List Char → Option Nat
  | [] => none
  | c :: rest =>
      if trailParenAt (c :: rest) then some 0 else (stpGo rest).map (· + 1)

/-- `re.sub(r'\s*-\s*\(.+?\)\s*$', '', s)`: delete the trailing
` - (…)` suffix when present. -/
def stripTrailParen (s : List Char) : List Char :=
  match stpGo s with
  | some q => s.take q
  | none => s

/-- Title parsing of `parse_html_file`: the three patterns in order, with
the third pattern's name cleanup. -/
def parseImpTitle (t : String) : Option (String × String × Option String) :=
  match titleP1 t.data with
  | some (c, nm, rk) =>
      some (String.mk [c], String.mk (pyStrip nm), some (String.mk (pyStrip rk)))
  | none =>
  match titleP2 t.data with
  | some (c, nm, rk) =>
      some (String.mk [c], String.mk (pyStrip nm), some (String.mk (pyStrip rk)))
  | none =>
  match titleP3 t.data with
  | some (c, nm) =>
      some (String.mk [c], String.mk (stripTrailParen (pyStrip nm)), none)
  | none => none

/-- `parse_html_file` of `parseFordSurveyImproved.py`: a missing `h1` or an
unparseable title (and, in the script, any internal exception) yields the
`None` sentinel; otherwise the line scan runs and a section is returned. -/
def parseHtmlFileImproved (d : HtmlDoc) : Option SectionResult :=
  match d.h1Title with
  | none => none
  | some t =>
      match parseImpTitle t with
      | none => none
      | some (sid, nm, rk) =>
          some { sectionId := sid, sectionName := nm, riskLevel := rk,
                 questions := improvedScan sid d.lines }

/-- The per-file loop of `main`: successfully parsed documents are
appended, failures are counted (the script prints a diagnostic and
continues with the next file). -/
def improvedBatch (docs : List HtmlDoc) : List SectionResult × Nat :=
  docs.foldl
    (fun acc d =>
      match parseHtmlFileImproved d with
      | some s => (acc.1 ++ [s], acc.2)
      | none => (acc.1, acc.2 + 1))
    ([], 0)

/-!
## `extractRealQuestions.py` / `extractFord2024Survey.py` — section merge of `main`
-/

/-- One step of the `all_sections` dictionary build: a known identifier has
its question list extended in place, an unknown one is appended. -/
def addSection (acc : List SectionResult) (s : SectionResult) : List SectionResult :=
  if acc.any (fun t => t.sectionId == s.sectionId) then
    acc.map (fun t =>
      if t.sectionId == s.sectionId then { t with questions := t.questions ++ s.questions }
      else t)
  else acc ++ [s]

/-- `sorted(all_sections.values(), key=lambda x: x['sectionId'])` after the
merge loop (Python's sort is a stable sort by the key). -/
def reconcileSections (parsed : List SectionResult) : List SectionResult :=
  (parsed.foldl addSection []).insertionSort (fun a b => a.sectionId ≤ b.sectionId)

/-!
## Concrete inputs used by the counterexamples and witnesses
-/

/-- The spec's end-to-end scenario input, section identifier `"A"`. -/
def c1lines : List String :=
  ["1. A.1 Does the organization have policy?",
   "Please select one of the following options",
   "Yes, we have a documented policy",
   "No, we do not",
   "Not applicable",
   "Answered by: Jane Doe",
   "Date: 07/12/2024"]

/-- A question start whose collected text is empty (the `Help Text` marker
follows immediately), for `extractRealQuestions.py`. -/
def c3lines : List String := ["A.1", "Help Text", "something helpful"]

/-- A question with a missing terminator whose next `QuestionStart` sits
right after a `Help Text` marker line. -/
def c4lines : List String := ["1. A.1 ok?", "x", "Help Text", "1. A.2 second?"]

/-- Two identical option lines inside the options sub-state. -/
def c5lines : List String :=
  ["1. A.1 q?",
   "Please select one of the following options",
   "Yes, we have a program",
   "Yes, we have a program"]

/-- An options marker carrying an option fragment after it on the same line. -/
def c8lines : List String := ["A.1", "Is it safe Please select Yes, we have a program"]

/-- A well-formed boundary scenario for the amended boundary-safety theorem. -/
def c4wlines : List String := ["1. A.1 first?", "a", "b", "1. A.2 second?"]

/-- A question with duplicate and `Not applicable` option lines, for the
witness of the `extractRealQuestions.py` dedup theorem. -/
def c5wlines : List String :=
  ["A.1", "Is it ok Please select",
   "Yes, we have a program", "Yes, we have a program", "Not applicable"]

/-- A default record used only to name the head of a scan result. -/
def qrDefault : QuestionRecord :=
  ⟨"", "", none, "", [], ⟨none, none, none, none⟩⟩

/-- A five-document batch whose second document has no parseable title. -/
def c2docs : List HtmlDoc :=
  [⟨some "Section A: Alpha - (High)", []⟩,
   ⟨some "no recognizable heading", []⟩,
   ⟨some "Section B: Beta - (Low)", []⟩,
   ⟨some "Section C: Gamma - (Low)", []⟩,
   ⟨some "Section D: Delta - (Low)", []⟩]

/-!
## Theorems
-/

/-- C1 (counterexample): on the spec's end-to-end scenario input with
section identifier `"A"`, `parseFordSurveyImproved.py` emits one record
whose `questionText` is the options-marker line (not
`"Does the organization have policy?"`) and whose `answeredBy` and
`answeredDate` are absent (not `"Jane Doe"` / `"07/12/2024"`): the
metadata lines are consumed by the options sub-state. -/
theorem c1_end_to_end_cex :
    (improvedScan "A" c1lines).map
      (fun r => (r.questionText, r.givenAnswer.answeredBy, r.givenAnswer.answeredDate)) =
    [("Please select one of the following options", none, none)] := by decide

/-- C1 (amended): the scenario yields exactly one record with
`questionId = "A.1"` and the three options in order, but its
`questionText` is the fallback line following the question start, and all
answer metadata is `None`. -/
theorem c1_end_to_end :
    improvedScan "A" c1lines =
    [{ questionId := "A.1",
       questionText := "Please select one of the following options",
       helpText := none,
       answerType := "single-choice",
       options := ["Yes, we have a documented policy", "No, we do not", "Not applicable"],
       givenAnswer := ⟨none, none, none, none⟩ }] := by decide

/-- C3 (counterexample): in `extractRealQuestions.py`, a question start
whose question-text collection yields the empty string is silently
dropped — the scan of `["A.1", "Help Text", "something helpful"]` emits no
record at all, rather than one with the placeholder text. -/
theorem c3_placeholder_cex : erqScan "A" c3lines = [] := by decide

/-- C4 (counterexample): in `parseFordSurveyImproved.py`, a `Help Text`
marker directly before the next question start makes the help-text grab
consume that `QuestionStart` line: the scan of
`["1. A.1 ok?", "x", "Help Text", "1. A.2 second?"]` emits only the `A.1`
record and stores the `A.2` line as its help text — no new record opens at
that line even though it is three lines past the start. -/
theorem c4_boundary_cex :
    (improvedScan "A" c4lines).map (fun r => (r.questionId, r.helpText)) =
    [("A.1", some "1. A.2 second?")] := by decide

/-- C5 (counterexample): `parseFordSurveyImproved.py` appends option lines
without any duplicate check, so two identical `"Yes, we have a program"`
lines yield the string twice in the emitted record's options. -/
theorem c5_dedup_cex :
    (improvedScan "A" c5lines).map (fun r => r.options) =
    [["Yes, we have a program", "Yes, we have a program"]] := by decide

/-- C6 (counterexample): the `extractFord2024Survey.py` pattern is an
unanchored substring search, so for section `"A"` a line carrying another
section's composite identifier `N.1A.2` is classified as a question start
of `"A"`; and the `parseFordSurvey.py` pattern rejects the composite
qualifier line `"A.13.1F"` outright (it accepts only purely numeric
qualifiers filling the whole line). -/
theorem c6_qstart_cex :
    ford2024QS "A" "See N.1A.2 for details" = true ∧ pfsQS "A.13.1F" = none := by decide

/-- C8 (counterexample): in `extractRealQuestions.py`, the fragment after
the options marker does not start the option list: scanning
`["A.1", "Is it safe Please select Yes, we have a program"]` ends
question-text collection at the marker (appending the pre-marker fragment)
but discards the post-marker fragment, leaving `options` empty. -/
theorem c8_qtext_cex :
    (erqScan "A" c8lines).map (fun r => (r.questionText, r.options)) =
    [("Is it safe", [])] := by decide

/-- The batch fold with generalized accumulator. -/
theorem improvedBatch_foldl (docs : List HtmlDoc) :
    ∀ (acc : List SectionResult) (n : Nat),
    docs.foldl
      (fun acc d =>
        match parseHtmlFileImproved d with
        | some s => (acc.1 ++ [s], acc.2)
        | none => (acc.1, acc.2 + 1)) (acc, n) =
    (acc ++ docs.filterMap parseHtmlFileImproved,
     n + (docs.filter (fun d => (parseHtmlFileImproved d).isNone)).length) := by
  induction docs with
  | nil => intro acc n; simp
  | cons d ds ih =>
      intro acc n
      simp only [List.foldl_cons, List.filterMap_cons, List.filter_cons]
      cases h : parseHtmlFileImproved d with
      | some s => simp [h, ih, List.append_assoc]
      | none =>
          simp only [h, ih, Option.isNone_none, if_pos, List.length_cons, Prod.mk.injEq]
          exact ⟨trivial, by omega⟩

/-- Successes and failures partition the batch. -/
theorem improvedBatch_partition (docs : List HtmlDoc) :
    (docs.filterMap parseHtmlFileImproved).length +
      (docs.filter (fun d => (parseHtmlFileImproved d).isNone)).length = docs.length := by
  induction docs with
  | nil => simp
  | cons d ds ih =>
      simp only [List.filterMap_cons, List.filter_cons]
      cases h : parseHtmlFileImproved d <;> simp [h] <;> omega

/-- C2: the batch loop of `parseFordSurveyImproved.main` collects exactly
the documents whose per-document parse returns a section (errors are the
`None` sentinel, never an abort), counts every failure, and therefore a
batch whose failure count is one yields one fewer section than it has
documents — siblings of a failing document are all processed. -/
theorem c2_batch_isolation (docs : List HtmlDoc) :
    (improvedBatch docs).1 = docs.filterMap parseHtmlFileImproved ∧
    (improvedBatch docs).2 =
      (docs.filter (fun d => (parseHtmlFileImproved d).isNone)).length ∧
    ((docs.filter (fun d => (parseHtmlFileImproved d).isNone)).length = 1 →
      (improvedBatch docs).1.length + 1 = docs.length) := by
  have h := improvedBatch_foldl docs [] 0
  refine ⟨?_, ?_, ?_⟩
  · simp [improvedBatch, h]
  · simp [improvedBatch, h]
  · intro h1
    have h2 := improvedBatch_partition docs
    simp [improvedBatch, h, h1] at h2 ⊢
    omega

/-- C2 witness: a concrete five-document batch with one unparseable title
yields four sections and the failure count one. -/
theorem c2_batch_isolation_w :
    (improvedBatch c2docs).1.length + 1 = c2docs.length :=
  (c2_batch_isolation c2docs).2.2 (by decide)

/-- The fuelled scoring loop: no match in the remaining window. -/
theorem scoringGo_none (lines : List String) (i : Nat) :
    ∀ fuel j, min (i + 50) lines.length ≤ j + fuel →
      (∀ k, j ≤ k → k < min (i + 50) lines.length → scoreCheck (lines.getD k "") = none) →
      scoringGo lines i fuel j = (none, none) := by
  intro fuel
  induction fuel with
  | zero => intro j hf hnone; simp [scoringGo]
  | succ fuel ih =>
      intro j hf hnone
      rw [scoringGo]
      split
      · rename_i hj
        rw [hnone j (le_refl j) hj]
        exact ih (j + 1) (by omega) (fun k hk1 hk2 => hnone k (by omega) hk2)
      · rfl

/-- The fuelled scoring loop: first matching line wins. -/
theorem scoringGo_some (lines : List String) (i : Nat) :
    ∀ fuel j jm n m, j ≤ jm → jm < min (i + 50) lines.length →
      scoreCheck (lines.getD jm "") = some (n, m) →
      (∀ k, j ≤ k → k < jm → scoreCheck (lines.getD k "") = none) →
      jm < j + fuel →
      scoringGo lines i fuel j = (some n, some m) := by
  intro fuel
  induction fuel with
  | zero => intro j jm n m h1 _ _ _ h5; omega
  | succ fuel ih =>
      intro j jm n m h1 h2 h3 h4 h5
      rw [scoringGo]
      rw [if_pos (by omega)]
      rcases Nat.eq_or_lt_of_le h1 with heq | hlt
      · subst heq
        rw [h3]
      · rw [h4 j (le_refl j) hlt]
        exact ih (j + 1) jm n m (by omega) h2 h3 (fun k hk1 hk2 => h4 k (by omega) hk2) (by omega)

/-- C7: for a question opened at line `i`, the scoring lookahead of
`extractFord2024Survey.py` inspects the window `[i, min(i+50, len))`; if no
line in the window passes the scoring test, both scoring components stay
`None`, and otherwise the first passing line's pair `(N, M)` is stored. -/
theorem c7_scoring_window (lines : List String) (i : Nat) :
    ((∀ k, i ≤ k → k < min (i + 50) lines.length →
        scoreCheck (lines.getD k "") = none) →
      scoringLookahead lines i = (none, none)) ∧
    (∀ j n m, i ≤ j → j < min (i + 50) lines.length →
      scoreCheck (lines.getD j "") = some (n, m) →
      (∀ k, i ≤ k → k < j → scoreCheck (lines.getD k "") = none) →
      scoringLookahead lines i = (some n, some m)) := by
  constructor
  · intro hnone
    exact scoringGo_none lines i 50 i (by have := Nat.min_le_left (i + 50) lines.length; omega)
      (fun k hk1 hk2 => hnone k hk1 hk2)
  · intro j n m h1 h2 h3 h4
    exact scoringGo_some lines i 50 i j n m h1 h2 h3 (fun k hk1 hk2 => h4 k hk1 hk2)
      (by have := Nat.min_le_left (i + 50) lines.length; omega)

/-- C7 witness: concrete windows with and without a scoring line. -/
theorem c7_scoring_window_w :
    scoringLookahead ["P.7 something?"] 0 = (none, none) ∧
    scoringLookahead ["P.7 something?", "Likelihood: 3, Overall impact: 4"] 0 =
      (some 3, some 4) :=
  ⟨(c7_scoring_window ["P.7 something?"] 0).1 (by decide),
   (c7_scoring_window ["P.7 something?", "Likelihood: 3, Overall impact: 4"] 0).2 1 3 4
     (by decide) (by decide) (by decide) (by decide)⟩

/-- The Improved lookahead never moves the index backwards. -/
theorem impInner_fst_ge (sid : String) (lines : List String) (i : Nat) :
    ∀ fuel j st, j ≤ (impInner sid lines i fuel j st).1 := by
  intro fuel
  induction fuel with
  | zero => intro j st; rw [impInner]
  | succ fuel ih =>
      intro j st
      rw [impInner]
      split
      · split
        · exact le_refl _
        · exact Nat.le_trans (Nat.le_add_right _ _) (ih _ _)
      · exact le_refl _

/-- The `extractRealQuestions.py` lookahead never moves the index backwards. -/
theorem erqInner_fst_ge (sid : String) (lines : List String) (i : Nat) :
    ∀ fuel j st, j ≤ (erqInner sid lines i fuel j st).1 := by
  intro fuel
  induction fuel with
  | zero => intro j st; rw [erqInner]
  | succ fuel ih =>
      intro j st
      rw [erqInner]
      split
      · repeat' split
        all_goals first
          | exact le_refl _
          | exact Nat.le_trans (Nat.le_add_right _ _) (ih _ _)
      · exact le_refl _

/-- Each Improved outer iteration consumes fuel and emits at most one record. -/
theorem impOuter_length (sid : String) (lines : List String) :
    ∀ fuel i acc, (impOuter sid lines fuel i acc).length ≤ acc.length + fuel := by
  intro fuel
  induction fuel with
  | zero => intro i acc; rw [impOuter]; omega
  | succ fuel ih =>
      intro i acc
      rw [impOuter]
      split
      · split
        · exact Nat.le_trans (ih _ _) (by simp; omega)
        · exact Nat.le_trans (ih _ _) (by omega)
      · omega

/-- Each `extractRealQuestions.py` outer iteration consumes fuel and emits
at most one record. -/
theorem erqOuter_length (sid : String) (lines : List String) :
    ∀ fuel i acc, (erqOuter sid lines fuel i acc).length ≤ acc.length + fuel := by
  intro fuel
  induction fuel with
  | zero => intro i acc; rw [erqOuter]; omega
  | succ fuel ih =>
      intro i acc
      rw [erqOuter]
      split
      · split
        · refine Nat.le_trans (ih _ _) ?_
          split
          · simp; omega
          · omega
        · exact Nat.le_trans (ih _ _) (by omega)
      · omega

/-- The option-continuation loop of `extractFord2024Survey.py` never moves
its index backwards. -/
theorem f24Cont_ge (stops : List String) (sid : String) (lines : List String) :
    ∀ fuel k acc, k ≤ (f24Cont stops sid lines fuel k acc).1 := by
  intro fuel
  induction fuel with
  | zero => intro k acc; rw [f24Cont]
  | succ fuel ih =>
      intro k acc
      rw [f24Cont]
      split
      · split
        · exact Nat.le_trans (Nat.le_add_right _ _) (ih _ _)
        · exact le_refl _
      · exact le_refl _

/-- The option phase of `extractFord2024Survey.py` never moves the base
index backwards (after `j = k - 1` the bottom `j += 1` restores at least
the continuation start). -/
theorem f24Phase2_fst_ge (sid : String) (lines : List String) (j : Nat)
    (nl : String) (st : F24St) : j ≤ (f24Phase2 sid lines j nl st).1 := by
  have hy := f24Cont_ge f24ContStopsY sid lines lines.length (j + 1) nl.data
  have hn := f24Cont_ge f24ContStopsN sid lines lines.length (j + 1) nl.data
  unfold f24Phase2
  repeat' split
  all_goals dsimp only
  all_goals omega

/-- Every executed iteration of the `extractFord2024Survey.py` lookahead
loop advances its index by at least one (a break carries the default). -/
theorem f24Step_j_ge (sid : String) (lines : List String) (i j : Nat) (st : F24St) :
    j + 1 ≤ f24ActJ (f24Step sid lines i j st) (j + 1) := by
  unfold f24Step
  split
  · exact le_refl _
  · split
    · exact le_refl _
    · split
      · exact le_refl _
      · rename_i st1 heq
        have h := f24Phase2_fst_ge sid lines j (lines.getD j "") st1
        show j + 1 ≤ (f24Phase2 sid lines j (lines.getD j "") st1).1 + 1
        omega

/-- The `extractFord2024Survey.py` lookahead never moves the index
backwards. -/
theorem f24Inner_fst_ge (sid : String) (lines : List String) (i : Nat) :
    ∀ fuel j st, j ≤ (f24Inner sid lines i fuel j st).1 := by
  intro fuel
  induction fuel with
  | zero => intro j st; rw [f24Inner]
  | succ fuel ih =>
      intro j st
      rw [f24Inner]
      split
      · cases hstep : f24Step sid lines i j st with
        | brk => exact le_refl _
        | goto j2 st1 =>
            have h := f24Step_j_ge sid lines i j st
            rw [hstep] at h
            simp only [f24ActJ] at h
            exact Nat.le_trans (Nat.le_of_succ_le h) (ih j2 st1)
      · exact le_refl _

/-- Each `extractFord2024Survey.py` outer iteration consumes fuel and
emits at most one record. -/
theorem f24Outer_length (sid : String) (lines : List String) :
    ∀ fuel i acc, (f24Outer sid lines fuel i acc).length ≤ acc.length + fuel := by
  intro fuel
  induction fuel with
  | zero => intro i acc; rw [f24Outer]; omega
  | succ fuel ih =>
      intro i acc
      rw [f24Outer]
      split
      · split
        · split
          · split
            · refine Nat.le_trans (ih _ _) ?_
              split
              all_goals simp only [List.length_append, List.length_singleton, List.append_nil]
              all_goals omega
            · refine Nat.le_trans (ih _ _) ?_
              split
              all_goals simp only [List.length_append, List.length_singleton, List.append_nil]
              all_goals omega
          · exact Nat.le_trans (ih _ _) (by omega)
        · exact Nat.le_trans (ih _ _) (by omega)
      · omega

/-- C10: the per-document scans terminate with a linearly bounded amount of
work: all three lookahead loops only move their index forward (a jump
target is always at least the position it started from, hence past the
question-start line), the `extractFord2024Survey.py` loop moreover
advancing by at least one on every executed iteration — including through
the `j = k - 1` option continuations and the `Comments` grab — and
consequently each scan emits at most one record per input line. -/
theorem c10_scan_progress :
    (∀ sid lines i fuel j st, j ≤ (impInner sid lines i fuel j st).1) ∧
    (∀ sid lines i fuel j st, j ≤ (erqInner sid lines i fuel j st).1) ∧
    (∀ sid lines i fuel j st, j ≤ (f24Inner sid lines i fuel j st).1) ∧
    (∀ sid lines i j st, j + 1 ≤ f24ActJ (f24Step sid lines i j st) (j + 1)) ∧
    (∀ sid lines, (improvedScan sid lines).length ≤ lines.length) ∧
    (∀ sid lines, (erqScan sid lines).length ≤ lines.length) ∧
    (∀ sid lines, (f24Scan sid lines).length ≤ lines.length) :=
  ⟨fun sid lines i fuel j st => impInner_fst_ge sid lines i fuel j st,
   fun sid lines i fuel j st => erqInner_fst_ge sid lines i fuel j st,
   fun sid lines i fuel j st => f24Inner_fst_ge sid lines i fuel j st,
   fun sid lines i j st => f24Step_j_ge sid lines i j st,
   fun sid lines => by
      have h := impOuter_length sid lines lines.length 0 []
      simpa [improvedScan] using h,
   fun sid lines => by
      have h := erqOuter_length sid lines lines.length 0 []
      simpa [erqScan] using h,
   fun sid lines => by
      have h := f24Outer_length sid lines lines.length 0 []
      simpa [f24Scan] using h⟩

/-- The final placeholder guard of the Improved record builder always
yields a non-empty string. -/
theorem ite_placeholder_ne (s : String) :
    (if s ≠ "" then s else "Question text not found") ≠ "" := by
  split
  · assumption
  · decide

/-- An Improved record is never built with an empty question text. -/
theorem impFinishRecord_text_ne (sid qnum : String) (lines : List String)
    (i : Nat) (st : ImpSt) :
    (impFinishRecord sid qnum lines i st).questionText ≠ "" :=
  ite_placeholder_ne _

/-- Every record the Improved outer loop emits has a non-empty question
text. -/
theorem impOuter_text_ne (sid : String) (lines : List String) :
    ∀ fuel i acc, (∀ r ∈ acc, r.questionText ≠ "") →
      ∀ r ∈ impOuter sid lines fuel i acc, r.questionText ≠ "" := by
  intro fuel
  induction fuel with
  | zero => intro i acc hacc; rw [impOuter]; exact hacc
  | succ fuel ih =>
      intro i acc hacc
      rw [impOuter]
      split
      · split
        · refine ih _ _ ?_
          intro r hr
          rcases List.mem_append.mp hr with h | h
          · exact hacc r h
          · rcases List.mem_singleton.mp h with rfl
            exact impFinishRecord_text_ne _ _ _ _ _
        · exact ih _ _ hacc
      · exact hacc

/-- C3 (amended): in `parseFordSurveyImproved.py` a record whose
question-text collection came up empty is still emitted and is never
emitted with an empty `questionText`: the builder falls back to the line
after the question start, and when no such line exists it emits the
literal placeholder `"Question text not found"`; hence every record of a
scan has non-empty question text.  (`extractRealQuestions.py` instead drops
such records — the counterexample.) -/
theorem c3_text_fallback (sid qnum : String) (lines : List String) (i : Nat)
    (st : ImpSt) :
    (impFinishRecord sid qnum lines i st).questionText ≠ "" ∧
    (pyJoinStrip st.qlines = "" → lines.length ≤ i + 1 →
      (impFinishRecord sid qnum lines i st).questionText = "Question text not found") ∧
    (∀ r ∈ improvedScan sid lines, r.questionText ≠ "") := by
  refine ⟨impFinishRecord_text_ne sid qnum lines i st, ?_, ?_⟩
  · intro h0 hlen
    unfold impFinishRecord
    simp [h0, Nat.not_lt.mpr hlen]
  · intro r hr
    exact impOuter_text_ne sid lines lines.length 0 [] (by simp) r hr

/-- C3 witness: a question start on the last line with nothing collected
gets the literal placeholder. -/
theorem c3_text_fallback_w :
    (impFinishRecord "A" "1" ["1. A.1 y"] 0 impSt0).questionText =
      "Question text not found" :=
  (c3_text_fallback "A" "1" ["1. A.1 y"] 0 impSt0).2.1 (by decide) (by decide)

/-- C6 (amended): the `extractFord2024Survey.py` classifier accepts every
line that carries `S.Q` at a question boundary for a section letter `S` and
a qualifier `Q` of one or more characters drawn from digits, uppercase
letters and `'.'` — including plain numeric and composite qualifiers.  The
match is anchored only to the literal substring `S.`, not to a question
boundary, which is what the counterexample exhibits. -/
theorem c6_question_start (c : Char) (q rest : String)
    (_hc : 'A' ≤ c ∧ c ≤ 'Z') (hq : q ≠ "")
    (hcls : ∀ ch ∈ q.data, fordQSClass ch = true) :
    ford2024QS (String.mk [c]) (String.mk ([c] ++ '.' :: q.data ++ ' ' :: rest.data)) = true := by
  obtain ⟨ch, t, hqd⟩ : ∃ ch t, q.data = ch :: t := by
    cases hd : q.data with
    | nil =>
        exfalso
        apply hq
        cases q with
        | mk d => simp only [String.data] at hd; subst hd; rfl
    | cons a b => exact ⟨a, b, rfl⟩
  have hclass : fordQSClass ch = true := hcls ch (by rw [hqd]; exact List.mem_cons_self _ _)
  show fordGo [c, '.'] 2 (c :: '.' :: (q.data ++ ' ' :: rest.data)) = true
  rw [hqd, fordGo]
  simp [List.isPrefixOf, hclass]

/-- C6 witness: section `A`, composite qualifier `13.1F`. -/
theorem c6_question_start_w :
    ford2024QS (String.mk ['A'])
      (String.mk (['A'] ++ '.' :: "13.1F".data ++ ' ' :: "is this controlled?".data)) = true :=
  c6_question_start 'A' "13.1F" "is this controlled?" (by decide) (by decide) (by decide)

/-- The head of a `dropWhile` result never satisfies the predicate. -/
theorem dropWhile_head_not (p : Char → Bool) (l : List Char) (c : Char)
    (h : (l.dropWhile p).head? = some c) : p c = false := by
  induction l with
  | nil => simp [List.dropWhile] at h
  | cons a t ih =>
      by_cases hp : p a = true
      · rw [List.dropWhile_cons, if_pos hp] at h
        exact ih h
      · rw [List.dropWhile_cons, if_neg hp] at h
        simp only [List.head?_cons, Option.some.injEq] at h
        subst h
        exact Bool.not_eq_true _ ▸ hp

/-- `dropWhile` is the identity when the head fails the predicate. -/
theorem dropWhile_eq_self_of_head (p : Char → Bool) (l : List Char)
    (h : ∀ c, l.head? = some c → p c = false) : l.dropWhile p = l := by
  cases l with
  | nil => rfl
  | cons a t =>
      rw [List.dropWhile_cons, if_neg]
      simp [h a rfl]

/-- `str.strip` is the identity when neither end is whitespace. -/
theorem pyStrip_eq_self (l : List Char)
    (hh : ∀ c, l.head? = some c → wsChar c = false)
    (hl : ∀ c, l.getLast? = some c → wsChar c = false) : pyStrip l = l := by
  unfold pyStrip
  rw [dropWhile_eq_self_of_head wsChar l hh]
  rw [dropWhile_eq_self_of_head wsChar l.reverse
    (by intro c hc; rw [List.head?_reverse] at hc; exact hl c hc)]
  exact List.reverse_reverse l

/-- The first character of a stripped string is not whitespace. -/
theorem pyStrip_head_not (l : List Char) (c : Char)
    (h : (pyStrip l).head? = some c) : wsChar c = false := by
  unfold pyStrip at h
  rw [List.head?_reverse] at h
  obtain ⟨t, ht⟩ := List.dropWhile_suffix (l := (l.dropWhile wsChar).reverse) (p := wsChar)
  have hne : (((l.dropWhile wsChar).reverse).dropWhile wsChar) ≠ [] := by
    intro hnil
    rw [hnil] at h
    simp at h
  have h2 : (t ++ ((l.dropWhile wsChar).reverse).dropWhile wsChar).getLast? = some c := by
    rw [List.getLast?_append_of_ne_nil _ hne]
    exact h
  rw [ht, List.getLast?_reverse] at h2
  exact dropWhile_head_not wsChar _ c h2

/-- The last character of a stripped string is not whitespace. -/
theorem pyStrip_getLast_not (l : List Char) (c : Char)
    (h : (pyStrip l).getLast? = some c) : wsChar c = false := by
  unfold pyStrip at h
  rw [List.getLast?_reverse] at h
  exact dropWhile_head_not wsChar _ c h

/-- `str.strip` is idempotent. -/
theorem pyStrip_idem (l : List Char) : pyStrip (pyStrip l) = pyStrip l :=
  pyStrip_eq_self _ (fun c h => pyStrip_head_not l c h) (fun c h => pyStrip_getLast_not l c h)

/-- Every alternation suffix of the option patterns is non-empty and ends
in a non-whitespace character. -/
theorem erqWords_facts :
    ∀ w ∈ erqWords, w ≠ [] ∧ wsChar ((w.getLast?).getD 'x') = false := by decide

/-- A successful suffix lookup returns one of the alternation branches. -/
theorem erqWordAt_mem (s w : List Char) (h : erqWordAt s = some w) : w ∈ erqWords := by
  unfold erqWordAt at h
  obtain ⟨a, ha, hfa⟩ := List.exists_of_findSome?_eq_some h
  by_cases hp : a.isPrefixOf s = true
  · rw [if_pos hp] at hfa
    cases hfa
    exact ha
  · rw [if_neg hp] at hfa
    cases hfa

/-- A successful `[^N]+(?:...)` body is a run followed by an alternation
branch. -/
theorem erqTryBody_shape (rest : List Char) :
    ∀ k body n, erqTryBody rest k = some (body, n) →
      ∃ mid w, body = mid ++ w ∧ w ∈ erqWords := by
  intro k
  induction k with
  | zero =>
      intro body n h
      rw [erqTryBody] at h
      cases h
  | succ k ih =>
      intro body n h
      rw [erqTryBody] at h
      split at h
      · cases hw : erqWordAt (rest.drop (k + 1)) with
        | some w =>
            rw [hw] at h
            simp only [Option.some.injEq, Prod.mk.injEq] at h
            exact ⟨rest.take (k + 1), w, h.1.symm, erqWordAt_mem _ _ hw⟩
        | none =>
            rw [hw] at h
            exact ih body n h
      · exact ih body n h

/-- Every `findall` match is the fixed pattern head, a run, and an
alternation branch. -/
theorem erqFindallGo_shape (pre : List Char) :
    ∀ fuel s o, o ∈ erqFindallGo pre fuel s →
      ∃ mid w, o = pre ++ (mid ++ w) ∧ w ∈ erqWords := by
  intro fuel
  induction fuel with
  | zero =>
      intro s o h
      exact absurd h (List.not_mem_nil o)
  | succ fuel ih =>
      intro s o h
      cases s with
      | nil => exact absurd h (List.not_mem_nil o)
      | cons a t =>
          rw [erqFindallGo] at h
          split at h
          · split at h
            · rename_i body n htb
              rcases List.mem_cons.mp h with rfl | h2
              · obtain ⟨mid, w, hb, hw⟩ := erqTryBody_shape _ _ _ _ htb
                exact ⟨mid, w, by rw [hb], hw⟩
              · exact ih _ _ h2
            · exact ih _ _ h
          · exact ih _ _ h

/-- Every `findall` match is already stripped (its first character is the
pattern head, its last is the end of an alternation branch). -/
theorem erqFindall_strip_fix (c0 : Char) (t0 : List Char) (hc0 : wsChar c0 = false)
    (fuel : Nat) (s o : List Char) (h : o ∈ erqFindallGo (c0 :: t0) fuel s) :
    pyStrip o = o := by
  obtain ⟨mid, w, ho, hw⟩ := erqFindallGo_shape (c0 :: t0) fuel s o h
  obtain ⟨hwne, hwlast⟩ := erqWords_facts w hw
  apply pyStrip_eq_self
  · intro c hc
    rw [ho, List.cons_append, List.head?_cons, Option.some.injEq] at hc
    rw [← hc]
    exact hc0
  · intro c hc
    have hmw : mid ++ w ≠ [] := by
      intro hnil
      rw [List.append_eq_nil] at hnil
      exact hwne hnil.2
    rw [ho, List.getLast?_append_of_ne_nil _ hmw,
      List.getLast?_append_of_ne_nil _ hwne] at hc
    rw [hc] at hwlast
    simpa using hwlast

/-- The guarded option-append loop preserves distinctness. -/
theorem foldl_erqAddOpt_nodup (ms : List String) :
    ∀ os : List String, os.Nodup → (∀ o ∈ ms, pyStripS o = o) →
      (ms.foldl erqAddOpt os).Nodup := by
  induction ms with
  | nil => intro os h _; simpa using h
  | cons m ms ih =>
      intro os h hm
      rw [List.foldl_cons]
      refine ih _ ?_ (fun o ho => hm o (List.mem_cons_of_mem _ ho))
      unfold erqAddOpt
      split
      · exact h
      · rename_i hmem
        rw [hm m (List.mem_cons_self _ _)]
        refine List.Nodup.append h (List.nodup_singleton m) ?_
        intro a ha hb
        rw [List.mem_singleton] at hb
        subst hb
        exact hmem ha

/-- Option extraction preserves distinctness of the accumulated options. -/
theorem erqExtractOpts_nodup (nl : String) (st : ErqSt) (h : st.options.Nodup) :
    (erqExtractOpts nl st).options.Nodup := by
  have hyes : ∀ o ∈ erqFindallYes nl, pyStripS o = o := by
    intro o ho
    obtain ⟨oc, hoc, rfl⟩ := List.mem_map.mp ho
    show String.mk (pyStrip oc) = String.mk oc
    exact congrArg String.mk (erqFindall_strip_fix 'Y' [ 'e', 's', ','] (by decide) _ _ oc hoc)
  have hno : ∀ o ∈ erqFindallNo nl, pyStripS o = o := by
    intro o ho
    obtain ⟨oc, hoc, rfl⟩ := List.mem_map.mp ho
    show String.mk (pyStrip oc) = String.mk oc
    exact congrArg String.mk (erqFindall_strip_fix 'N' ['o', ','] (by decide) _ _ oc hoc)
  have h1 := foldl_erqAddOpt_nodup (erqFindallYes nl) st.options h hyes
  have h2 := foldl_erqAddOpt_nodup (erqFindallNo nl) _ h1 hno
  unfold erqExtractOpts
  dsimp only
  split
  · rename_i hna
    refine List.Nodup.append h2 (List.nodup_singleton _) ?_
    intro a ha hb
    rw [List.mem_singleton] at hb
    subst hb
    exact hna.2 ha
  · exact h2

/-- The question-text block never touches the option list (`cont` case). -/
theorem erqQTextStep_cont_options (nl : String) (st s1 : ErqSt)
    (h : erqQTextStep nl st = .cont s1) : s1.options = st.options := by
  unfold erqQTextStep at h
  repeat' split at h
  all_goals (cases h <;> rfl)

/-- The question-text block never touches the option list (`fall` case). -/
theorem erqQTextStep_fall_options (nl : String) (st s1 : ErqSt)
    (h : erqQTextStep nl st = .fall s1) : s1.options = st.options := by
  unfold erqQTextStep at h
  repeat' split at h
  all_goals (cases h <;> rfl)

/-- The `extractRealQuestions.py` lookahead preserves option distinctness. -/
theorem erqInner_options_nodup (sid : String) (lines : List String) (i : Nat) :
    ∀ fuel j st, st.options.Nodup → ((erqInner sid lines i fuel j st).2).options.Nodup := by
  intro fuel
  induction fuel with
  | zero => intro j st h; rw [erqInner]; exact h
  | succ fuel ih =>
      intro j st h
      rw [erqInner]
      split
      · split
        · exact h
        · cases hstep : erqQTextStep (lines.getD j "") st with
          | cont st1 =>
              have h1 : st1.options.Nodup := by
                rw [erqQTextStep_cont_options _ _ _ hstep]; exact h
              exact ih _ _ h1
          | fall st1 =>
              have h1 : st1.options.Nodup := by
                rw [erqQTextStep_fall_options _ _ _ hstep]; exact h
              dsimp only
              split
              · split
                · exact erqExtractOpts_nodup _ _ h1
                · exact ih _ _ (erqExtractOpts_nodup _ _ h1)
              · exact ih _ _ h1
      · exact h

/-- Every record emitted by the `extractRealQuestions.py` outer loop has
distinct options. -/
theorem erqOuter_options_nodup (sid : String) (lines : List String) :
    ∀ fuel i acc, (∀ r ∈ acc, r.options.Nodup) →
      ∀ r ∈ erqOuter sid lines fuel i acc, r.options.Nodup := by
  intro fuel
  induction fuel with
  | zero => intro i acc hacc; rw [erqOuter]; exact hacc
  | succ fuel ih =>
      intro i acc hacc
      rw [erqOuter]
      split
      · split
        · refine ih _ _ ?_
          intro r hr
          split at hr
          · rcases List.mem_append.mp hr with hmem | hmem
            · exact hacc r hmem
            · rcases List.mem_singleton.mp hmem with rfl
              exact erqInner_options_nodup sid lines _ 30 _ erqSt0 List.nodup_nil
          · exact hacc r hr
        · exact ih _ _ hacc
      · exact hacc

/-- C5 (amended): in `extractRealQuestions.py` every emitted record's
options are pairwise distinct, kept in encounter order — the guarded
appends discard exact duplicates (including the `Not applicable` literal).
(`parseFordSurveyImproved.py` has no duplicate guard — the counterexample.) -/
theorem c5_option_dedup (sid : String) (lines : List String) :
    ∀ r ∈ erqScan sid lines, r.options.Nodup := by
  intro r hr
  exact erqOuter_options_nodup sid lines lines.length 0 [] (by simp) r hr

/-- C5 witness: a concrete scan with duplicate option lines produces a
record with distinct options. -/
theorem c5_option_dedup_w :
    ((erqScan "A" c5wlines).headD qrDefault).options.Nodup :=
  c5_option_dedup "A" c5wlines _ (by decide)

/-- The in-place question extension of the merge step keeps every entry's
section identifier. -/
theorem addSection_upd_id (s t : SectionResult) :
    (if t.sectionId == s.sectionId then
      { t with questions := t.questions ++ s.questions } else t).sectionId = t.sectionId := by
  split <;> rfl

/-- One merge step keeps the section identifiers pairwise distinct. -/
theorem addSection_keys (acc : List SectionResult) (s : SectionResult)
    (h : acc.Pairwise (fun a b => a.sectionId ≠ b.sectionId)) :
    (addSection acc s).Pairwise (fun a b => a.sectionId ≠ b.sectionId) := by
  unfold addSection
  split
  · rw [List.pairwise_map]
    refine h.imp ?_
    intro a b hab
    rw [addSection_upd_id, addSection_upd_id]
    exact hab
  · rename_i hany
    rw [List.pairwise_append]
    refine ⟨h, List.pairwise_singleton _ _, ?_⟩
    intro a ha b hb
    rw [List.mem_singleton] at hb
    subst hb
    intro heq
    exact hany (List.any_eq_true.mpr ⟨a, ha, by simp [heq]⟩)

/-- The merge fold keeps the section identifiers pairwise distinct. -/
theorem foldl_addSection_keys (parsed : List SectionResult) :
    ∀ acc, acc.Pairwise (fun a b => a.sectionId ≠ b.sectionId) →
      (parsed.foldl addSection acc).Pairwise (fun a b => a.sectionId ≠ b.sectionId) := by
  induction parsed with
  | nil => intro acc h; exact h
  | cons p ps ih =>
      intro acc h
      rw [List.foldl_cons]
      exact ih _ (addSection_keys acc p h)

/-- A key-distinct list has at most one entry per section identifier. -/
theorem filter_len_le_one (l : List SectionResult) (sid : String)
    (h : l.Pairwise (fun a b => a.sectionId ≠ b.sectionId)) :
    (l.filter (fun t => t.sectionId == sid)).length ≤ 1 := by
  induction l with
  | nil => simp
  | cons a rest ih =>
      rw [List.pairwise_cons] at h
      by_cases ha : (a.sectionId == sid) = true
      · have hrest : rest.filter (fun t => t.sectionId == sid) = [] := by
          rw [List.filter_eq_nil_iff]
          intro t ht hts
          have hne := h.1 t ht
          rw [beq_iff_eq] at ha hts
          exact hne (by rw [ha, hts])
        simp only [List.filter_cons, ha, if_true, hrest]
        simp
      · have ha2 : (a.sectionId == sid) = false := by simpa using ha
        simp only [List.filter_cons, ha2, Bool.false_eq_true, if_false]
        exact ih h.2

/-- When a section identifier is present in a key-distinct list, its filter
is exactly one entry. -/
theorem filter_eq_singleton_of_any (acc : List SectionResult) (sid : String)
    (hnd : acc.Pairwise (fun a b => a.sectionId ≠ b.sectionId))
    (hany : acc.any (fun t => t.sectionId == sid) = true) :
    ∃ t0, acc.filter (fun t => t.sectionId == sid) = [t0] := by
  induction acc with
  | nil => simp at hany
  | cons a rest ih =>
      rw [List.pairwise_cons] at hnd
      by_cases ha : (a.sectionId == sid) = true
      · refine ⟨a, ?_⟩
        have hrest : rest.filter (fun t => t.sectionId == sid) = [] := by
          rw [List.filter_eq_nil_iff]
          intro t ht hts
          have hne := hnd.1 t ht
          rw [beq_iff_eq] at ha hts
          exact hne (by rw [ha, hts])
        simp only [List.filter_cons, ha, if_true, hrest]
      · have ha2 : (a.sectionId == sid) = false := by simpa using ha
        have hany2 : rest.any (fun t => t.sectionId == sid) = true := by
          rw [List.any_cons] at hany
          simpa [ha2] using hany
        simp only [List.filter_cons, ha2, Bool.false_eq_true, if_false]
        exact ih hnd.2 hany2

/-- One merge step routes the new document's questions to its section's
entry (extending in place when present, appending a new entry otherwise). -/
theorem addSection_filter_step (acc : List SectionResult) (p : SectionResult) (sid : String)
    (hnd : acc.Pairwise (fun a b => a.sectionId ≠ b.sectionId)) :
    ((addSection acc p).filter (fun t => t.sectionId == sid)).flatMap
        (fun t => t.questions) =
      ((acc.filter (fun t => t.sectionId == sid)).flatMap (fun t => t.questions)) ++
      (if p.sectionId == sid then p.questions else []) := by
  unfold addSection
  split
  · rename_i hany
    rw [List.filter_map]
    by_cases hps : (p.sectionId == sid) = true
    · have hsid : p.sectionId = sid := beq_iff_eq.mp hps
      have hcomp : (fun (t : SectionResult) => t.sectionId == sid) ∘
          (fun (t : SectionResult) => if t.sectionId == p.sectionId then
            { t with questions := t.questions ++ p.questions } else t) =
          (fun (t : SectionResult) => t.sectionId == sid) := by
        funext t
        simp only [Function.comp_apply, addSection_upd_id]
      rw [hcomp]
      subst hsid
      obtain ⟨t0, ht0⟩ := filter_eq_singleton_of_any acc p.sectionId hnd hany
      have ht0mem : t0 ∈ acc.filter (fun t => t.sectionId == p.sectionId) := by
        rw [ht0]; exact List.mem_singleton.mpr rfl
      have ht0p : (t0.sectionId == p.sectionId) = true := (List.mem_filter.mp ht0mem).2
      rw [ht0]
      rw [beq_iff_eq] at ht0p
      simp [hps, ht0p]
    · have hps2 : (p.sectionId == sid) = false := by simpa using hps
      have hcomp : (fun (t : SectionResult) => t.sectionId == sid) ∘
          (fun (t : SectionResult) => if t.sectionId == p.sectionId then
            { t with questions := t.questions ++ p.questions } else t) =
          (fun (t : SectionResult) => t.sectionId == sid) := by
        funext t
        simp only [Function.comp_apply, addSection_upd_id]
      rw [hcomp]
      have hfix : ∀ t ∈ acc.filter (fun t => t.sectionId == sid),
          (if t.sectionId == p.sectionId then
            { t with questions := t.questions ++ p.questions } else t) = id t := by
        intro t ht
        have htf : (t.sectionId == sid) = true := (List.mem_filter.mp ht).2
        show _ = t
        rw [if_neg]
        intro htp
        rw [beq_iff_eq] at htf htp
        rw [← htf, htp] at hps2
        simp at hps2
      have hmapid : (acc.filter (fun t => t.sectionId == sid)).map
          (fun t => if t.sectionId == p.sectionId then
            { t with questions := t.questions ++ p.questions } else t) =
          acc.filter (fun t => t.sectionId == sid) := by
        rw [List.map_congr_left hfix, List.map_id]
      rw [hmapid, hps2]
      simp
  · rw [List.filter_append, List.flatMap_append]
    congr 1
    rw [List.filter_cons]
    split
    · rename_i hp
      simp [hp]
    · rename_i hp
      have hfalse : (p.sectionId == sid) = false := by
        cases hpb : (p.sectionId == sid) with
        | true => exact absurd hpb hp
        | false => rfl
      simp [hfalse]

/-- The merge fold concatenates, per section identifier, the question
sequences of the documents in processing order. -/
theorem foldl_addSection_filter (parsed : List SectionResult) :
    ∀ acc, acc.Pairwise (fun a b => a.sectionId ≠ b.sectionId) → ∀ sid : String,
      ((parsed.foldl addSection acc).filter (fun t => t.sectionId == sid)).flatMap
          (fun t => t.questions) =
        ((acc.filter (fun t => t.sectionId == sid)).flatMap (fun t => t.questions)) ++
        ((parsed.filter (fun t => t.sectionId == sid)).flatMap (fun t => t.questions)) := by
  induction parsed with
  | nil => intro acc h sid; simp
  | cons p ps ih =>
      intro acc h sid
      rw [List.foldl_cons, ih _ (addSection_keys acc p h) sid,
        addSection_filter_step acc p sid h, List.append_assoc, List.filter_cons]
      congr 1
      split
      · rename_i hp
        simp [hp]
      · rename_i hp
        have : (p.sectionId == sid) = false := by
          cases hpb : (p.sectionId == sid) with
          | true => exact absurd hpb hp
          | false => rfl
        simp [this]

/-- Chains of length at most one are equal to their permutations. -/
theorem perm_eq_of_short {l1 l2 : List SectionResult} (h : l1.Perm l2)
    (hl : l2.length ≤ 1) : l1 = l2 := by
  cases l2 with
  | nil => exact h.eq_nil
  | cons a t =>
      cases t with
      | nil => exact List.perm_singleton.mp h
      | cons b u => simp at hl

/-- C9: the document reconciler of `extractRealQuestions.py` /
`extractFord2024Survey.py` merges all documents sharing a section
identifier into a single entry whose questions are the concatenation, in
document-processing order, of the documents' question sequences, and the
final collection is sorted in ascending `sectionId` order regardless of
the processing order. -/
theorem c9_reconcile (parsed : List SectionResult) :
    (reconcileSections parsed).Pairwise (fun a b => a.sectionId ≤ b.sectionId) ∧
    ∀ sid : String,
      ((reconcileSections parsed).filter (fun t => t.sectionId == sid)).length ≤ 1 ∧
      ((reconcileSections parsed).filter (fun t => t.sectionId == sid)).flatMap
          (fun t => t.questions) =
        (parsed.filter (fun t => t.sectionId == sid)).flatMap (fun t => t.questions) := by
  have hkeys : (parsed.foldl addSection []).Pairwise
      (fun a b => a.sectionId ≠ b.sectionId) :=
    foldl_addSection_keys parsed [] (List.Pairwise.nil)
  have hperm : (reconcileSections parsed).Perm (parsed.foldl addSection []) :=
    List.perm_insertionSort _ _
  constructor
  · haveI htot : IsTotal SectionResult (fun a b => a.sectionId ≤ b.sectionId) :=
      ⟨fun a b => le_total a.sectionId b.sectionId⟩
    haveI htr : IsTrans SectionResult (fun a b => a.sectionId ≤ b.sectionId) :=
      ⟨fun a b c hab hbc => le_trans hab hbc⟩
    exact List.sorted_insertionSort _ _
  · intro sid
    have hfperm := hperm.filter (fun t => t.sectionId == sid)
    have hlen : ((parsed.foldl addSection []).filter
        (fun t => t.sectionId == sid)).length ≤ 1 :=
      filter_len_le_one _ sid hkeys
    have heq := perm_eq_of_short hfperm hlen
    rw [heq]
    refine ⟨hlen, ?_⟩
    have h2 := foldl_addSection_filter parsed [] (List.Pairwise.nil) sid
    simpa using h2

/-- A two-part split certifies that the separator occurs in the string. -/
theorem pySplit_two_contains (pat s a b : List Char)
    (h : pySplit pat s = [a, b]) : containsSub s pat = true := by
  unfold pySplit at h
  rw [pySplitGo] at h
  cases hocc : findOcc pat s with
  | none => rw [hocc] at h; simp at h
  | some idx =>
      unfold containsSub
      rw [hocc]
      rfl

/-- C8 (amended): while question text is being collected in
`extractRealQuestions.py`: a line containing the `Help Text` marker ends
collection, appending the stripped pre-marker fragment and storing the
stripped post-marker fragment as help text (when it is non-empty and free
of the options marker); a line containing the options marker ends
collection and enters the options sub-state, appending the stripped
pre-marker fragment while the post-marker fragment is discarded (option
content starts only at the following line); and a plain line containing
`?` is appended as the last line of question text, after which collection
stops. -/
theorem c8_qtext_transitions (nl : String) (st : ErqSt)
    (hcq : st.collectingQuestion = true) :
    (∀ pre tail : List Char,
      pySplit "Help Text".data nl.data = [pre, tail] →
      pyStrip tail ≠ [] →
      containsSub tail "Please select".data = false →
      erqQTextStep nl st = .cont { st with
        questionText := if pyStrip pre ≠ [] then st.questionText ++ ' ' :: pyStrip pre
          else st.questionText,
        collectingQuestion := false,
        helpText := some (String.mk (pyStrip tail)) }) ∧
    (∀ pre tail : List Char,
      strContains nl "Help Text" = false →
      pySplit "Please select".data nl.data = [pre, tail] →
      erqQTextStep nl st = .cont { st with
        questionText := if pyStrip pre ≠ [] then st.questionText ++ ' ' :: pyStrip pre
          else st.questionText,
        collectingQuestion := false, collectingOptions := true }) ∧
    (strContains nl "Help Text" = false →
      strContains nl "Please select" = false →
      '?' ∈ nl.data → nl ≠ "" → strStarts nl "Data Location" = false →
      erqQTextStep nl st = .fall { st with
        questionText := st.questionText ++ ' ' :: nl.data,
        collectingQuestion := false }) := by
  refine ⟨?_, ?_, ?_⟩
  · intro pre tail hsplit htail hnps
    have hcont : strContains nl "Help Text" = true := pySplit_two_contains _ _ _ _ hsplit
    unfold erqQTextStep
    simp [hcq, hcont, hsplit, htail, hnps]
  · intro pre tail hht hsplit
    have hcont : strContains nl "Please select" = true := pySplit_two_contains _ _ _ _ hsplit
    unfold erqQTextStep
    simp [hcq, hht, hcont, hsplit]
  · intro hht hps hqm hne hdl
    unfold erqQTextStep
    simp [hcq, hht, hps, hqm, hne, hdl]

/-- C8 witness: concrete transitions for the three collecting-text cases. -/
theorem c8_qtext_transitions_w :
    erqQTextStep "Is it safe Help Text More detail" erqSt0 = .cont { erqSt0 with
      questionText :=
        if pyStrip "Is it safe ".data ≠ [] then
          erqSt0.questionText ++ ' ' :: pyStrip "Is it safe ".data
        else erqSt0.questionText,
      collectingQuestion := false,
      helpText := some (String.mk (pyStrip " More detail".data)) } ∧
    erqQTextStep "Is it safe Please select Yes, more" erqSt0 = .cont { erqSt0 with
      questionText :=
        if pyStrip "Is it safe ".data ≠ [] then
          erqSt0.questionText ++ ' ' :: pyStrip "Is it safe ".data
        else erqSt0.questionText,
      collectingQuestion := false, collectingOptions := true } ∧
    erqQTextStep "Is it safe?" erqSt0 = .fall { erqSt0 with
      questionText := erqSt0.questionText ++ ' ' :: "Is it safe?".data,
      collectingQuestion := false } :=
  ⟨(c8_qtext_transitions _ erqSt0 rfl).1 "Is it safe ".data " More detail".data
      (by decide) (by decide) (by decide),
   (c8_qtext_transitions _ erqSt0 rfl).2.1 "Is it safe ".data " Yes, more".data
      (by decide) (by decide),
   (c8_qtext_transitions _ erqSt0 rfl).2.2 (by decide) (by decide) (by decide)
      (by decide) (by decide)⟩

/-- A matching line breaks the Improved lookahead immediately. -/
theorem impStep_stop_of_match (sid nl : String) (nextOk : Bool) (nl2 : String)
    (st : ImpSt) (h : (impQNum sid nl).isSome = true) :
    impStep sid nl nextOk nl2 st = .stop := by
  unfold impStep
  rw [if_pos h]

set_option maxHeartbeats 1000000 in
/-- On a non-matching, non-`Data Location:` line the Improved lookahead
never breaks. -/
theorem impStep_ne_stop (sid nl : String) (nextOk : Bool) (nl2 : String) (st : ImpSt)
    (hq : impQNum sid nl = none) (hdl : strStarts nl "Data Location:" = false) :
    impStep sid nl nextOk nl2 st ≠ .stop := by
  unfold impStep
  rw [hq]
  simp only [Option.isSome_none, Bool.false_eq_true, if_false]
  repeat' split
  all_goals first
    | exact fun hx => ImpAct.noConfusion hx
    | (rename_i hcond; rw [hdl] at hcond; exact Bool.noConfusion hcond)

set_option maxHeartbeats 1000000 in
/-- On a non-matching, non-`Data Location:` line the Improved lookahead
advances by one — by two only on a `Help Text` or `Comments` line. -/
theorem impStep_d_cases (sid nl : String) (nextOk : Bool) (nl2 : String) (st : ImpSt)
    (hq : impQNum sid nl = none) (hdl : strStarts nl "Data Location:" = false) :
    impActD (impStep sid nl nextOk nl2 st) = 1 ∨
      (impActD (impStep sid nl nextOk nl2 st) = 2 ∧ (nl = "Help Text" ∨ nl = "Comments")) := by
  unfold impStep
  rw [hq]
  simp only [Option.isSome_none, Bool.false_eq_true, if_false]
  repeat' split
  all_goals first
    | exact Or.inl rfl
    | exact Or.inr ⟨rfl, Or.inl (by assumption)⟩
    | exact Or.inr ⟨rfl, Or.inr (by assumption)⟩
    | (rename_i hcond; rw [hdl] at hcond; exact Bool.noConfusion hcond)

/-- The Improved lookahead, started anywhere strictly between a question
start `i` and the next matching line `j` (within the window, with no
`Data Location:` break in between, and with no `Help Text`/`Comments`
marker directly before `j`), stops exactly at `j`. -/
theorem impInner_reach (sid : String) (lines : List String) (i j : Nat)
    (hjlen : j < lines.length) (hjwin : j < i + 50)
    (hmatch : (impQNum sid (lines.getD j "")).isSome = true)
    (hprev1 : lines.getD (j - 1) "" ≠ "Help Text")
    (hprev2 : lines.getD (j - 1) "" ≠ "Comments")
    (hmid : ∀ k, k < j → i < k → impQNum sid (lines.getD k "") = none)
    (hterm : ∀ k, k < j → i < k → strStarts (lines.getD k "") "Data Location:" = false) :
    ∀ fuel j' st, i < j' → j' ≤ j → j + 1 ≤ j' + fuel →
      impInner sid lines i fuel j' st = (j, (impInner sid lines i fuel j' st).2) := by
  intro fuel
  induction fuel with
  | zero => intro j' st h1 h2 h3; omega
  | succ fuel ih =>
      intro j' st h1 h2 h3
      rcases Nat.eq_or_lt_of_le h2 with rfl | hlt
      · rw [impInner]
        rw [if_pos ⟨hjlen, hjwin⟩]
        rw [impStep_stop_of_match sid _ _ _ st hmatch]
      · have hq : impQNum sid (lines.getD j' "") = none := hmid j' hlt h1
        have hdl : strStarts (lines.getD j' "") "Data Location:" = false := hterm j' hlt h1
        have hne := impStep_ne_stop sid (lines.getD j' "")
          (decide (j' + 1 < lines.length)) (lines.getD (j' + 1) "") st hq hdl
        have hd := impStep_d_cases sid (lines.getD j' "")
          (decide (j' + 1 < lines.length)) (lines.getD (j' + 1) "") st hq hdl
        rw [impInner]
        rw [if_pos ⟨by omega, by omega⟩]
        cases hstep : impStep sid (lines.getD j' "")
            (decide (j' + 1 < lines.length)) (lines.getD (j' + 1) "") st with
        | stop => exact absurd hstep hne
        | next d st1 =>
            rw [hstep] at hd
            have hd2 : d = 1 ∨ (d = 2 ∧ (lines.getD j' "" = "Help Text" ∨
                lines.getD j' "" = "Comments")) := by
              simpa [impActD] using hd
            have hstepok : j' + d ≤ j := by
              rcases hd2 with rfl | ⟨rfl, hmk⟩
              · omega
              · rcases Nat.lt_or_ge j' (j - 1) with hj1 | hj1
                · omega
                · have : j' = j - 1 := by omega
                  subst this
                  rcases hmk with hmk | hmk
                  · exact absurd hmk hprev1
                  · exact absurd hmk hprev2
            have hdpos : 1 ≤ d := by rcases hd2 with rfl | ⟨rfl, _⟩ <;> omega
            exact ih (j' + d) st1 (by omega) hstepok (by omega)

/-- The Improved outer loop distributes over its accumulator. -/
theorem impOuter_append (sid : String) (lines : List String) :
    ∀ fuel i acc, impOuter sid lines fuel i acc = acc ++ impOuter sid lines fuel i [] := by
  intro fuel
  induction fuel with
  | zero => intro i acc; rw [impOuter, impOuter]; simp
  | succ fuel ih =>
      intro i acc
      conv_lhs => rw [impOuter]
      conv_rhs => rw [impOuter]
      split
      · split
        · rename_i qn heq
          rw [ih ((impInner sid lines i 50 (i + 1) impSt0).1)
                (acc ++ [impFinishRecord sid qn lines i
                  (impInner sid lines i 50 (i + 1) impSt0).2]),
              ih ((impInner sid lines i 50 (i + 1) impSt0).1)
                ([] ++ [impFinishRecord sid qn lines i
                  (impInner sid lines i 50 (i + 1) impSt0).2])]
          simp
        · exact ih (i + 1) acc
      · simp

/-- The Improved outer loop is insensitive to the exact fuel once it
covers the remaining lines (the cursor advances at least one line per
iteration). -/
theorem impOuter_fuelIrrel (sid : String) (lines : List String) :
    ∀ f1 f2 i acc, lines.length - i ≤ f1 → lines.length - i ≤ f2 →
      impOuter sid lines f1 i acc = impOuter sid lines f2 i acc := by
  intro f1
  induction f1 with
  | zero =>
      intro f2 i acc h1 h2
      rw [impOuter]
      cases f2 with
      | zero => rw [impOuter]
      | succ f2 =>
          rw [impOuter]
          rw [if_neg (by omega)]
  | succ f1 ih =>
      intro f2 i acc h1 h2
      cases f2 with
      | zero =>
          rw [impOuter, impOuter]
          rw [if_neg (by omega)]
      | succ f2 =>
          rw [impOuter]
          conv_rhs => rw [impOuter]
          split
          · rename_i hi
            split
            · have hge := impInner_fst_ge sid lines i 50 (i + 1) impSt0
              exact ih f2 _ _ (by omega) (by omega)
            · exact ih f2 (i + 1) acc (by omega) (by omega)
          · rfl

/-- C4 (amended): when a question start at line `i` is followed, with no
`Data Location:` terminator in between, by the next matching line `j` at
least three lines later (within the 50-line window), and the line directly
before `j` is not a `Help Text` or `Comments` marker line (whose one-line
grab would swallow `j` — the counterexample), the in-progress record is
closed and emitted, the scan resumes exactly at `j`, and a new record with
`j`'s question id opens there: the remainder of the document is never
attributed to the first record. -/
theorem c4_boundary_safety (sid : String) (lines : List String) (i j : Nat) (qi qj : String)
    (hqi : impQNum sid (lines.getD i "") = some qi)
    (hqj : impQNum sid (lines.getD j "") = some qj)
    (hjlen : j < lines.length)
    (hgap : i + 3 ≤ j)
    (hwin : j < i + 50)
    (hmid : ∀ k, k < j → i < k → impQNum sid (lines.getD k "") = none)
    (hterm : ∀ k, k < j → i < k → strStarts (lines.getD k "") "Data Location:" = false)
    (hprev1 : lines.getD (j - 1) "" ≠ "Help Text")
    (hprev2 : lines.getD (j - 1) "" ≠ "Comments") :
    (∃ st, impScanFrom sid lines i =
      impFinishRecord sid qi lines i st :: impScanFrom sid lines j) ∧
    (impScanFrom sid lines j).head?.map (fun r => r.questionId) =
      some (sid ++ "." ++ qj) := by
  have hilen : i < lines.length := by omega
  have hreach := impInner_reach sid lines i j hjlen hwin (by rw [hqj]; rfl)
    hprev1 hprev2 hmid hterm 50 (i + 1) impSt0 (by omega) (by omega) (by omega)
  have hfst : (impInner sid lines i 50 (i + 1) impSt0).1 = j := by
    rw [hreach]
  constructor
  · refine ⟨(impInner sid lines i 50 (i + 1) impSt0).2, ?_⟩
    show impOuter sid lines (lines.length - i) i [] = _
    have hli : lines.length - i = (lines.length - i - 1) + 1 := by omega
    rw [hli, impOuter, if_pos hilen]
    simp only [hqi]
    rw [hfst]
    rw [impOuter_append sid lines (lines.length - i - 1) j]
    rw [impOuter_fuelIrrel sid lines (lines.length - i - 1) (lines.length - j) j []
      (by omega) (by omega)]
    simp [impScanFrom]
  · show ((impOuter sid lines (lines.length - j) j []).head?.map fun r => r.questionId) = _
    have hlj : lines.length - j = (lines.length - j - 1) + 1 := by omega
    rw [hlj, impOuter, if_pos hjlen]
    simp only [hqj]
    rw [impOuter_append sid lines (lines.length - j - 1)]
    simp [impFinishRecord]

/-- C4 witness: a four-line document with starts at lines 0 and 3. -/
theorem c4_boundary_safety_w :
    (∃ st, impScanFrom "A" c4wlines 0 =
      impFinishRecord "A" "1" c4wlines 0 st :: impScanFrom "A" c4wlines 3) ∧
    (impScanFrom "A" c4wlines 3).head?.map (fun r => r.questionId) =
      some ("A" ++ "." ++ "2") :=
  c4_boundary_safety "A" c4wlines 0 3 "1" "2" (by decide) (by decide) (by decide)
    (by decide) (by decide) (by decide) (by decide) (by decide) (by decide)
